import Mathlib

/-!
Verification of the bogdanfinn-go-wrapper repository: a shallow embedding of
the wrapper's session model, header formatter, body encoder, URL builder
and retry-driven request executor, with theorems settling the specified
properties.

Modelling conventions:
* Go `string` is Lean `String`; Go `[]byte` is `List Nat`.
* Go maps (`map[string]string`) are association lists; Go's map iteration
  order is nondeterministic, so every theorem proved over a list model is
  order-insensitive in exactly the way the Go result is.
* Nil-able Go pointers (`*Session`, `*url.URL`, `*http.Cookie`) are `Option`.
* The external tls-client transport is an oracle: `Client.Do` is a function
  from the call index to the call's outcome. External standard-library code
  (net/url percent-escaping, encoding/json, mime/multipart buffers) is
  modelled at the level the wrapper observes; each such definition carries a
  doc comment saying what it stands for.
-/

namespace BFWrapper

/-- Decidable equality for `Except`, used to evaluate fixtures. -/
instance {ε α : Type} [DecidableEq ε] [DecidableEq α] : DecidableEq (Except ε α)
  | .ok a, .ok b => if h : a = b then .isTrue (by rw [h]) else .isFalse (by simp [h])
  | .ok _, .error _ => .isFalse (by simp)
  | .error _, .ok _ => .isFalse (by simp)
  | .error a, .error b => if h : a = b then .isTrue (by rw [h]) else .isFalse (by simp [h])

/-! ### Go string primitives used by the wrapper -/

/-- Model of Go `strings.TrimSpace`: drop leading and trailing whitespace. -/
def goTrim (s : String) : String :=
  ⟨((s.data.dropWhile Char.isWhitespace).reverse.dropWhile Char.isWhitespace).reverse⟩

/-- Model of Go `strings.ToLower` (character-wise lowering). -/
def goToLower (s : String) : String :=
  ⟨s.data.map Char.toLower⟩

/-- `containsSubAux needle hay`: does `needle` occur contiguously in `hay`? -/
def containsSubAux (needle : List Char) : List Char → Bool
  | [] => needle.isPrefixOf []
  | c :: rest => needle.isPrefixOf (c :: rest) || containsSubAux needle rest

/-- Model of Go `strings.Contains`. -/
def goContains (hay sub : String) : Bool :=
  containsSubAux sub.data hay.data

/-! ### Data model (part_001: Session, SessionConfig, Response, RequestOptions) -/

/-- Model of `http.Cookie` restricted to the fields the wrapper touches. -/
structure GoCookie where
  name : String
  value : String
  maxAge : Int := 0
  httpOnly : Bool := false
  secure : Bool := false
  sameSiteNone : Bool := false
  deriving Repr, DecidableEq

/-- `Session`: the opaque `tls_client.HttpClient` handle is modelled by the
single observable the wrapper uses, namely whether it is nil
(`clientPresent = true` models `Client != nil`). -/
structure Session where
  clientPresent : Bool
  userAgent : String
  secChUa : String
  secChUaPlatform : String
  maxRetries : Int
  deriving Repr, DecidableEq

/-- Model of `s.IsValid()` on a possibly-nil `*Session`:
`s != nil && s.Client != nil`. -/
def IsValid : Option Session → Bool
  | none => false
  | some s => s.clientPresent

/-- The body payload (`interface{}` in Go), as the tagged variant the body
encoder dispatches on: a plain string, a flat string map, or any other value
represented by its `encoding/json.Marshal` outcome (external library). -/
inductive BodyVal where
  | str (s : String)
  | strMap (entries : List (String × String))
  | other (jsonRepr : String)
  | unmarshalable (errMsg : String)
  deriving Repr, DecidableEq

/-- `RequestOptions` (nil maps are `none`). -/
structure RequestOptions where
  url : String
  headers : Option (List (String × String))
  body : Option BodyVal
  params : Option (List (String × String))
  deriving Repr, DecidableEq

/-- `Response`. A nil `Url` is `none`; nil slices/maps are empty lists. -/
structure Response where
  url : Option String
  body : List Nat
  statusCode : Nat
  headers : List (String × String)
  cookies : List GoCookie
  error : String
  deriving Repr, DecidableEq

/-- The Go zero value of `Response` (used for `var lastResponse Response`). -/
def Response.zero : Response :=
  { url := none, body := [], statusCode := 0, headers := [], cookies := [], error := "" }

/-! ### Header formatter (part_003: formatHeaders) -/

/-- The `switch normalizedKey` body of `formatHeaders`: substitute the
session default when a reserved header (matched on the lower-cased key)
carries the empty string or the sentinel `"default"`. -/
def formatHeaderValue (s : Session) (key value : String) : String :=
  let normalizedKey := goToLower key
  if normalizedKey = "user-agent" then
    if value = "" ∨ value = "default" then s.userAgent else value
  else if normalizedKey = "sec-ch-ua" then
    if value = "" ∨ value = "default" then s.secChUa else value
  else if normalizedKey = "sec-ch-ua-platform" then
    if value = "" ∨ value = "default" then s.secChUaPlatform else value
  else value

/-- The loop body of `formatHeaders` over the entries of the header map.
The Go function builds an `http.Header` map plus an explicit order list
(`HeaderOrderKey`); both are modelled together as the ordered association
list of (original key, formatted value). -/
def formatHeadersList (s : Session) : List (String × String) → Except String (List (String × String))
  | [] => .ok []
  | (key, value) :: rest =>
    if goTrim key = "" then .error "header key cannot be empty"
    else
      match formatHeadersList s rest with
      | .error e => .error e
      | .ok out => .ok ((key, formatHeaderValue s key value) :: out)

/-- `formatHeaders`: nil header map formats to the empty header collection. -/
def formatHeaders (s : Session) : Option (List (String × String)) → Except String (List (String × String))
  | none => .ok []
  | some hs => formatHeadersList s hs

/-! ### URL builder (part_003: buildURL) and its model of net/url

The wrapper calls four things from Go's external `net/url` package:
`url.Parse`, `URL.Query()` (= `ParseQuery` on the raw query, errors ignored),
`Values.Add`, and `Values.Encode` / `URL.String()`.  They are modelled here
at the character-list level.  Percent-escaping (`QueryEscape` /
`QueryUnescape`, external) is modelled as the identity, so theorems about
round-tripping carry explicit reserved-character hypotheses standing in for
the escaping the external library performs.  URL fragments and `ForceQuery`
are likewise outside the modelled validity conditions. -/

/-- Split a character list at every occurrence of `c` (model of the
`strings.Cut(query, "&")` loop inside net/url `ParseQuery`). -/
def splitOnChar (c : Char) : List Char → List (List Char)
  | [] => [[]]
  | x :: xs =>
    if x = c then [] :: splitOnChar c xs
    else
      match splitOnChar c xs with
      | [] => [[x]]
      | h :: t => (x :: h) :: t

/-- Cut a character list at the first occurrence of `c` (model of Go
`strings.Cut`): returns the part before and, when found, the part after. -/
def cutChar (c : Char) : List Char → List Char × Option (List Char)
  | [] => ([], none)
  | x :: xs =>
    if x = c then ([], some xs)
    else
      let r := cutChar c xs
      (x :: r.1, r.2)

/-- One query segment, split at its first `=` (key without `=` means empty
value), as in net/url `ParseQuery`. -/
def parsePair (seg : List Char) : List Char × List Char :=
  match cutChar '=' seg with
  | (k, some v) => (k, v)
  | (k, none) => (k, [])

/-- Model of net/url `ParseQuery` as the wrapper observes it through
`URL.Query()` (errors ignored): empty segments and segments containing a
semicolon are skipped, every other segment is cut at its first `=`. -/
def parseQueryPairs (q : List Char) : List (List Char × List Char) :=
  (splitOnChar '&' q).filterMap fun seg =>
    if seg = [] ∨ ';' ∈ seg then none else some (parsePair seg)

/-- net/url `Values`: a map from key to the list of values added under it,
as an association list with distinct keys. -/
abbrev Values := List (List Char × List (List Char))

/-- Model of `Values.Add`: append the value to the key's slice. -/
def valuesAdd : Values → List Char → List Char → Values
  | [], k, v => [(k, [v])]
  | (k', vs) :: rest, k, v =>
    if k' = k then (k', vs ++ [v]) :: rest else (k', vs) :: valuesAdd rest k v

/-- Grouping of parsed query pairs into `Values` (the `m[key] = append(...)`
loop of `ParseQuery`). -/
def valuesGroup (pairs : List (List Char × List Char)) : Values :=
  pairs.foldl (fun m kv => valuesAdd m kv.1 kv.2) []

/-- Model of `URL.Query()`: parse the raw query and group it. -/
def goQuery (rawQuery : List Char) : Values :=
  valuesGroup (parseQueryPairs rawQuery)

/-- Lexicographic byte order on keys, as used by `sort.Strings` inside
`Values.Encode`. -/
def charListLe : List Char → List Char → Bool
  | [], _ => true
  | _ :: _, [] => false
  | a :: as, b :: bs => if a = b then charListLe as bs else decide (a < b)

/-- Insertion step of the key sort in `Values.Encode`. -/
def insertValue (x : List Char × List (List Char)) : Values → Values
  | [] => [x]
  | y :: rest => if charListLe x.1 y.1 then x :: y :: rest else y :: insertValue x rest

/-- Key sort of `Values.Encode` (`sort.Strings(keys)`); any correct sort is
extensionally equivalent for the wrapper's observations. -/
def sortValues : Values → Values
  | [] => []
  | x :: rest => insertValue x (sortValues rest)

/-- The `k=v` segments emitted by `Values.Encode`, in key-sorted order
(escaping modelled as identity). -/
def encodeSegs (m : Values) : List (List Char) :=
  m.flatMap fun kv => kv.2.map fun v => kv.1 ++ '=' :: v

/-- Join segments with `&`. -/
def intercalateChar (c : Char) : List (List Char) → List Char
  | [] => []
  | [x] => x
  | x :: y :: rest => x ++ c :: intercalateChar c (y :: rest)

/-- Model of `Values.Encode`. -/
def valuesEncode (m : Values) : List Char :=
  intercalateChar '&' (encodeSegs (sortValues m))

/-- A parsed URL as the wrapper observes it: the part before the first `?`
is opaque (`pre`), the part after is the raw query. -/
structure GoURL where
  pre : List Char
  rawQuery : List Char
  deriving Repr, DecidableEq

/-- Model of `url.Parse` restricted to the observations the wrapper makes
(split at the first `?`; Go's parse errors on malformed inputs are outside
the modelled validity conditions, under which Parse succeeds). -/
def urlParse (s : String) : GoURL :=
  match cutChar '?' s.data with
  | (pre, some q) => { pre := pre, rawQuery := q }
  | (pre, none) => { pre := pre, rawQuery := [] }

/-- Model of `URL.String()`: re-attach the raw query when non-empty. -/
def urlString (u : GoURL) : String :=
  ⟨u.pre ++ (if u.rawQuery = [] then [] else '?' :: u.rawQuery)⟩

/-- The flat (key, value) pairs of a URL's query, as Strings — what
re-parsing the built URL observes. -/
def urlQueryPairs (u : GoURL) : List (String × String) :=
  (parseQueryPairs u.rawQuery).map fun kv => (⟨kv.1⟩, ⟨kv.2⟩)

/-- `buildURL` (part_003 lines 151–176): validate non-blank base, parse,
return unchanged when no extra params, else merge the extra params into the
existing query with `Add` semantics, skipping blank keys, and re-encode. -/
def buildURL (baseURL : String) (params : Option (List (String × String))) : Except String String :=
  if goTrim baseURL = "" then .error "baseURL cannot be empty"
  else
    let parsedURL := urlParse baseURL
    match params with
    | none => .ok (urlString parsedURL)
    | some ps =>
      if ps = [] then .ok (urlString parsedURL)
      else
        let queryParams := goQuery parsedURL.rawQuery
        let queryParams := ps.foldl
          (fun acc kv => if goTrim kv.1 = "" then acc else valuesAdd acc kv.1.data kv.2.data)
          queryParams
        .ok (urlString { parsedURL with rawQuery := valuesEncode queryParams })

/-- Validity condition on a query key (character level), standing in for
net/url's percent-escaping: no separator characters. -/
def cleanKeyC (k : List Char) : Prop :=
  '&' ∉ k ∧ '=' ∉ k ∧ ';' ∉ k

/-- Validity condition on a query value (character level). -/
def cleanValC (v : List Char) : Prop :=
  '&' ∉ v ∧ ';' ∉ v

/-- Validity condition on an extra-parameter key standing in for net/url's
percent-escaping: no separator characters. -/
def cleanKey (s : String) : Prop :=
  cleanKeyC s.data

/-- Validity condition on an extra-parameter value. -/
def cleanVal (s : String) : Prop :=
  cleanValC s.data

/-- All keys and values stored in a `Values` map are separator-free. -/
def goodValues (m : Values) : Prop :=
  ∀ e ∈ m, cleanKeyC e.1 ∧ ∀ v ∈ e.2, cleanValC v

/-- The flat (key, value) pairs a `Values` map holds, key first. -/
def flatPairs (m : Values) : List (List Char × List Char) :=
  m.flatMap fun e => e.2.map fun v => (e.1, v)

instance (k : List Char) : Decidable (cleanKeyC k) :=
  inferInstanceAs (Decidable (('&' ∉ k) ∧ ('=' ∉ k) ∧ (';' ∉ k)))

instance (v : List Char) : Decidable (cleanValC v) :=
  inferInstanceAs (Decidable (('&' ∉ v) ∧ (';' ∉ v)))

instance (s : String) : Decidable (cleanKey s) :=
  inferInstanceAs (Decidable (cleanKeyC s.data))

instance (s : String) : Decidable (cleanVal s) :=
  inferInstanceAs (Decidable (cleanValC s.data))

/-! ### Body encoder (part_003: formatBody and the four encoders) -/

/-- The four encoder branches of `formatBody`'s dispatch switch. -/
inductive Branch where
  | form
  | text
  | multipart
  | json
  deriving Repr, DecidableEq

/-- The dispatch switch of `formatBody`: substring checks on the resolved
content type, in the source's fixed priority order, defaulting to JSON. -/
def selectBranch (contentType : String) : Branch :=
  if goContains contentType "application/x-www-form-urlencoded" then .form
  else if goContains contentType "text/plain" then .text
  else if goContains contentType "multipart/form-data" then .multipart
  else .json

/-- Content-type discovery in `formatBody`: the first header whose
lower-cased key is `content-type`, its value lower-cased and trimmed;
if none, infer `text/plain` for a string body and `application/json`
otherwise. -/
def resolveContentType (headers : Option (List (String × String))) (body : BodyVal) : String :=
  let declared :=
    match (headers.getD []).find? (fun kv => goToLower kv.1 = "content-type") with
    | some kv => goToLower (goTrim kv.2)
    | none => ""
  if declared = "" then
    match body with
    | .str _ => "text/plain"
    | _ => "application/json"
  else declared

/-- Model of `Values.Set` used by `formatFormURLEncoded` (`data.Set(k, v)`:
replace the key's slice with the single value). -/
def valuesSet : Values → List Char → List Char → Values
  | [], k, v => [(k, [v])]
  | (k', vs) :: rest, k, v =>
    if k' = k then (k', [v]) :: rest else (k', vs) :: valuesSet rest k v

/-- `formatFormURLEncoded`: requires a flat string map, form-encodes it. -/
def formatFormURLEncoded (body : BodyVal) : Except String (String × String) :=
  match body with
  | .strMap entries =>
    let data := entries.foldl (fun acc kv => valuesSet acc kv.1.data kv.2.data) []
    .ok (⟨valuesEncode data⟩, "application/x-www-form-urlencoded")
  | _ => .error "body must be map[string]string for application/x-www-form-urlencoded"

/-- `formatTextPlain`: requires a plain string. -/
def formatTextPlain (body : BodyVal) : Except String (String × String) :=
  match body with
  | .str s => .ok (s, "text/plain")
  | _ => .error "body must be string for text/plain"

/-- Hex digit table used by the boundary model. -/
def hexChars : List Char := "0123456789abcdef".data

/-- Two lower-case hex digits per byte: model of the `%x` rendering of the
30 random bytes that mime/multipart (external) draws for its boundary. -/
def hexStr (randBytes : List Nat) : String :=
  ⟨randBytes.flatMap fun b => [hexChars.getD (b / 16 % 16) '0', hexChars.getD (b % 16) '0']⟩

/-- The multipart body payload for one field (model of the part written by
`writer.WriteField`; the exact framing lives in mime/multipart, external). -/
def multipartFieldChunk (boundary : String) (kv : String × String) : String :=
  "--" ++ boundary ++ "\r\n" ++ kv.1 ++ "\r\n" ++ kv.2 ++ "\r\n"

/-- `formatMultipartFormData`: requires a flat string map, writes each entry
as one form field, and returns `multipart/form-data` with the freshly
generated boundary (`writer.FormDataContentType()`; a hex boundary never
needs quoting).  `randBytes` are the external random bytes behind the
boundary; writes to the in-memory buffer cannot fail. -/
def formatMultipartFormData (randBytes : List Nat) (body : BodyVal) : Except String (String × String) :=
  match body with
  | .strMap entries =>
    let boundary := hexStr randBytes
    let buf := String.join (entries.map (multipartFieldChunk boundary)) ++ "--" ++ boundary ++ "--\r\n"
    .ok (buf, "multipart/form-data; boundary=" ++ boundary)
  | _ => .error "body must be map[string]string for multipart/form-data"

/-- Model of `encoding/json.Marshal` (external) on the wrapper's body
variants; `unmarshalable` stands for value shapes Marshal rejects. -/
def jsonMarshal : BodyVal → Except String String
  | .str s => .ok ("\x22" ++ s ++ "\x22")
  | .strMap entries =>
    .ok ("\x7b" ++ String.intercalate "," (entries.map fun kv => "\x22" ++ kv.1 ++ "\x22:\x22" ++ kv.2 ++ "\x22") ++ "\x7d")
  | .other jsonRepr => .ok jsonRepr
  | .unmarshalable msg => .error msg

/-- `formatJSON`: structural serialization via json.Marshal. -/
def formatJSON (body : BodyVal) : Except String (String × String) :=
  match jsonMarshal body with
  | .error e => .error ("error marshaling body to JSON: " ++ e)
  | .ok s => .ok (s, "application/json")

/-- `formatBody` (part_003 lines 57–95): nil body produces nothing,
otherwise resolve the content type and dispatch. Returns the body stream
(`none` for a nil reader) and the final content-type string. -/
def formatBody (randBytes : List Nat) (headers : Option (List (String × String)))
    (body : Option BodyVal) : Except String (Option String × String) :=
  match body with
  | none => .ok (none, "")
  | some b =>
    let ct := resolveContentType headers b
    let encoded :=
      match selectBranch ct with
      | .form => formatFormURLEncoded b
      | .text => formatTextPlain b
      | .multipart => formatMultipartFormData randBytes b
      | .json => formatJSON b
    match encoded with
    | .error e => .error e
    | .ok (stream, contentType) => .ok (some stream, contentType)

/-! ### Request executor and retry driver (wrapper.go) -/

/-- `map[string]string` assignment under an exact key: replace the entry
whose key is (byte-for-byte) equal, else add the binding. -/
def assocSet (hs : List (String × String)) (k v : String) : List (String × String) :=
  if hs.any (fun kv => kv.1 = k) then
    hs.map fun kv => if kv.1 = k then (k, v) else kv
  else hs ++ [(k, v)]

/-- The content-type header update step of `executeRequest` (wrapper.go
lines 95–104): only when the resolved content type is non-empty, the header
map is non-nil and the content type indicates multipart, write the
boundary-bearing value under the exact key `content-type`. -/
def applyContentTypeHeader (headers : Option (List (String × String))) (contentType : String) :
    Option (List (String × String)) :=
  match headers with
  | none => none
  | some hs =>
    if contentType ≠ "" ∧ goContains contentType "multipart/form-data" then
      some (assocSet hs "content-type" contentType)
    else some hs

/-- A transport-level request (`http.Request` as the wrapper uses it:
method, final URL, body stream; `http.NewRequest` is external and succeeds
on the validated method constants and already-parsed URL). -/
structure GoRequest where
  method : String
  url : String
  body : Option String
  deriving Repr, DecidableEq

/-- The outcome of one successful external `Client.Do` call: status,
headers, cookies, optional redirect location (`resp.Location()`), and the
result of draining the body (`io.ReadAll`, which may itself fail). -/
structure HTTPResp where
  statusCode : Nat
  headers : List (String × String)
  cookies : List GoCookie
  location : Option String
  bodyRead : Except String (List Nat)
  deriving Repr

/-- The external transport as an oracle: the outcome of the n-th
`Client.Do` call (counting from 0). -/
def DoOracle := Nat → Except String HTTPResp

/-- `handleResponse` (part_003 lines 179–239).  Returns the response plus
the number of `Client.Do` calls performed (0 or 1).  `errParam` is the
`err` argument (always nil at the retry driver's call site). -/
def handleResponse (s : Session) (request : RequestOptions) (req : GoRequest)
    (errParam : Option String) (doResult : Except String HTTPResp) : Response × Nat :=
  let emptyResponse : Response := Response.zero
  match errParam with
  | some e => ({ emptyResponse with error := "Error creating request: " ++ e }, 0)
  | none =>
    if !s.clientPresent then
      ({ emptyResponse with error := "Session or client is nil" }, 0)
    else
      match formatHeaders s request.headers with
      | .error e => ({ emptyResponse with error := "Error formatting headers: " ++ e }, 0)
      | .ok _formatted =>
        match doResult with
        | .error e => ({ emptyResponse with error := "Request error: " ++ e }, 1)
        | .ok resp =>
          match resp.bodyRead with
          | .error e => ({ emptyResponse with error := "Error reading response body: " ++ e }, 1)
          | .ok bodyBytes =>
            ({ url := some (match resp.location with | some loc => loc | none => req.url)
               cookies := resp.cookies
               headers := resp.headers
               body := bodyBytes
               statusCode := resp.statusCode
               error := "" }, 1)

/-- The clamp `if maxRetries <= 0 { maxRetries = 1 }` at the top of
`executeWithRetry`. -/
def effectiveRetries (maxRetries : Int) : Nat :=
  if maxRetries ≤ 0 then 1 else maxRetries.toNat

/-- The final rewrap after the retry loop exhausts its budget. -/
def wrapMaxRetries (budget : Nat) (r : Response) : Response :=
  { r with error := "max retries (" ++ toString budget ++ ") exceeded: " ++ r.error }

/-- The observable outcome of the retry driver: final response, number of
loop iterations, number of external transport calls, and the backoff sleep
durations (milliseconds) in order. -/
structure RetryTrace where
  response : Response
  attempts : Nat
  transportCalls : Nat
  sleepsMs : List Nat
  deriving Repr, DecidableEq

/-- A trace for the fail-fast paths before the retry loop. -/
def RetryTrace.immediate (r : Response) : RetryTrace :=
  { response := r, attempts := 0, transportCalls := 0, sleepsMs := [] }

/-- The `for attempt := 0; attempt < maxRetries; attempt++` loop of
`executeWithRetry`, recursing on the remaining iteration count.
`f attempt tcalls` performs one `handleResponse` attempt given how many
transport calls happened so far; an empty error string is the only success
exit; a failed non-final attempt sleeps `100ms * (attempt+1)`; the final
failure is rewrapped. `last` mirrors the `lastResponse` variable. -/
def retryLoop (f : Nat → Nat → Response × Nat) (budget attempt tcalls : Nat)
    (last : Response) (remaining : Nat) : RetryTrace :=
  match remaining with
  | 0 => RetryTrace.immediate (wrapMaxRetries budget last)
  | r + 1 =>
    let step := f attempt tcalls
    if step.1.error = "" then
      { response := step.1, attempts := 1, transportCalls := step.2, sleepsMs := [] }
    else
      match r with
      | 0 =>
        { response := wrapMaxRetries budget step.1, attempts := 1,
          transportCalls := step.2, sleepsMs := [] }
      | r' + 1 =>
        let t := retryLoop f budget (attempt + 1) (tcalls + step.2) step.1 (r' + 1)
        { response := t.response, attempts := t.attempts + 1,
          transportCalls := t.transportCalls + step.2,
          sleepsMs := 100 * (attempt + 1) :: t.sleepsMs }

/-- `executeWithRetry` (wrapper.go lines 119–145). -/
def executeWithRetry (s : Session) (request : RequestOptions) (req : GoRequest)
    (doFn : DoOracle) : RetryTrace :=
  let budget := effectiveRetries s.maxRetries
  retryLoop (fun _attempt tcalls => handleResponse s request req none (doFn tcalls))
    budget 0 0 Response.zero budget

/-- `executeRequest` (wrapper.go lines 60–116): validate the session and
URL, build the final URL, encode the body, conditionally update the
content-type header, assemble the request, and run the retry driver. -/
def executeRequest (s : Option Session) (method : String) (request : RequestOptions)
    (randBytes : List Nat) (doFn : DoOracle) : RetryTrace :=
  match s with
  | none => RetryTrace.immediate { Response.zero with error := "session or client is nil" }
  | some ss =>
    if !ss.clientPresent then
      RetryTrace.immediate { Response.zero with error := "session or client is nil" }
    else if goTrim request.url = "" then
      RetryTrace.immediate { Response.zero with error := "URL cannot be empty" }
    else
      match buildURL request.url request.params with
      | .error e =>
        RetryTrace.immediate { Response.zero with error := "error parsing URL: " ++ e }
      | .ok parsedUrl =>
        match formatBody randBytes request.headers request.body with
        | .error e =>
          RetryTrace.immediate { Response.zero with error := "error formatting body: " ++ e }
        | .ok (bodyReader, contentType) =>
          let headers := applyContentTypeHeader request.headers contentType
          let request := { request with headers := headers }
          let req : GoRequest := { method := method, url := parsedUrl, body := bodyReader }
          executeWithRetry ss request req doFn

/-- `Get` (the other six public request methods differ only in the method
constant passed to `executeRequest`). -/
def Get (s : Option Session) (request : RequestOptions) (randBytes : List Nat)
    (doFn : DoOracle) : RetryTrace :=
  executeRequest s "GET" request randBytes doFn

/-! ### Cookie/proxy management and session lifecycle (wrapper.go) -/

/-- The target URL of a cookie operation (`*url.URL`): only the scheme is
observed (for the `Secure` flag). -/
structure URLRef where
  scheme : String
  rest : String
  deriving Repr, DecidableEq

/-- Calls issued to the external transport / cookie store. -/
inductive Effect where
  | doCall (req : GoRequest)
  | setCookiesCall (url : URLRef) (cookies : List GoCookie)
  | getCookiesCall (url : Option URLRef)
  | setCookieJarCall
  | setProxyCall (proxy : String)
  deriving Repr, DecidableEq

/-- `SetCookies`: validate, then push one cookie with the fixed 1-year /
HttpOnly / Secure-if-https / SameSite=None defaults. -/
def SetCookies (s : Option Session) (name value : String) (targetURL : Option URLRef) :
    Option String × List Effect :=
  if !IsValid s then (some "session or client is nil", [])
  else if goTrim name = "" then (some "cookie name cannot be empty", [])
  else
    match targetURL with
    | none => (some "target URL cannot be nil", [])
    | some u =>
      let cookie : GoCookie :=
        { name := name, value := value, maxAge := 60 * 60 * 24 * 365,
          httpOnly := true, secure := u.scheme = "https", sameSiteNone := true }
      (none, [.setCookiesCall u [cookie]])

/-- `SetCookiesWithOptions`: validate, then push the caller's cookie. -/
def SetCookiesWithOptions (s : Option Session) (cookie : Option GoCookie)
    (targetURL : Option URLRef) : Option String × List Effect :=
  if !IsValid s then (some "session or client is nil", [])
  else
    match cookie with
    | none => (some "cookie cannot be nil", [])
    | some c =>
      match targetURL with
      | none => (some "target URL cannot be nil", [])
      | some u =>
        if goTrim c.name = "" then (some "cookie name cannot be empty", [])
        else (none, [.setCookiesCall u [c]])

/-- `SetProxy`: validate, then hand the proxy string to the transport
(`url.Parse` is external and succeeds on the inputs modelled here). -/
def SetProxy (s : Option Session) (proxy : String) : Option String × List Effect :=
  if !IsValid s then (some "session or client is nil", [])
  else if goTrim proxy = "" then (some "proxy URL cannot be empty", [])
  else (none, [.setProxyCall proxy])

/-- `ClearCookies`: replace the cookie jar with a fresh one
(`tls_client.NewCookieJar`, external, never nil). -/
def ClearCookies (s : Option Session) : Option String × List Effect :=
  if !IsValid s then (some "session or client is nil", [])
  else (none, [.setCookieJarCall])

/-- `GetCookies`: fetch the store's cookies for the URL (the store's reply
is the `storeCookies` oracle, nils included) and keep the non-nil,
non-blank-name ones. -/
def GetCookies (s : Option Session) (targetURL : Option URLRef)
    (storeCookies : List (Option GoCookie)) :
    Except String (List GoCookie) × List Effect :=
  if !IsValid s then (.error "session or client is nil", [])
  else
    (.ok (storeCookies.filterMap fun c =>
        match c with
        | none => none
        | some cookie => if goTrim cookie.name ≠ "" then some cookie else none),
     [.getCookiesCall targetURL])

/-- `GetCookie`: nil on an invalid session or blank name, else the first
store cookie with exactly the requested name. -/
def GetCookie (s : Option Session) (name : String) (targetURL : Option URLRef)
    (storeCookies : List (Option GoCookie)) : Option GoCookie × List Effect :=
  if !IsValid s then (none, [])
  else if goTrim name = "" then (none, [])
  else
    ((storeCookies.filterMap fun c =>
        match c with
        | none => none
        | some cookie => if cookie.name = name then some cookie else none).head?,
     [.getCookiesCall targetURL])

/-- The outcome of `Close`: the returned error (nil = `none`), the session
state afterwards, and the external calls made. -/
structure CloseResult where
  err : Option String
  state : Option Session
  effects : List Effect
  deriving Repr, DecidableEq

/-- `Close` (wrapper.go lines 304–318): invalid sessions return nil
unchanged; otherwise clear cookies, then nil the client handle. -/
def closeSession (s : Option Session) : CloseResult :=
  if !IsValid s then { err := none, state := s, effects := [] }
  else
    match s with
    | none => { err := none, state := none, effects := [] }
    | some ss =>
      match ClearCookies s with
      | (some e, effs) =>
        { err := some ("error clearing cookies during close: " ++ e), state := s, effects := effs }
      | (none, effs) =>
        { err := none, state := some { ss with clientPresent := false }, effects := effs }

/-! ### Concrete fixtures for witnesses and counterexamples -/

/-- A valid test session with the default retry budget 3. -/
def sessFix : Session :=
  { clientPresent := true, userAgent := "UA-default", secChUa := "SC-default",
    secChUaPlatform := "SP-default", maxRetries := 3 }

/-- A transport stub that always fails with message `boom`. -/
def boomDo : DoOracle := fun _ => .error "boom"

/-- A minimal valid request with no headers, body or params. -/
def plainRequest : RequestOptions :=
  { url := "http://example.test/a", headers := none, body := none, params := none }

/-- A request whose header map contains a whitespace-only key. -/
def blankKeyRequest : RequestOptions :=
  { url := "http://example.test/a", headers := some [(" ", "v")], body := none, params := none }

/-- A successful transport reply. -/
def okResp : HTTPResp :=
  { statusCode := 200, headers := [("server", "t")], cookies := [],
    location := none, bodyRead := .ok [104, 105] }

/-- A transport stub failing twice, then succeeding. -/
def failTwiceDo : DoOracle := fun n => if n < 2 then .error "boom" else .ok okResp

/-- A concrete assembled transport request. -/
def reqFix : GoRequest :=
  { method := "GET", url := "http://example.test/a", body := none }

/-- Helper: `formatHeadersList` fails whenever some key is blank. -/
theorem formatHeadersList_blank_key (s : Session) (hs : List (String × String))
    (h : ∃ kv ∈ hs, goTrim kv.1 = "") :
    formatHeadersList s hs = .error "header key cannot be empty" := by
  induction hs with
  | nil => obtain ⟨kv, hmem, _⟩ := h; cases hmem
  | cons head tail ih =>
    obtain ⟨kv, hmem, hblank⟩ := h
    rcases List.mem_cons.mp hmem with heq | hmem
    · subst heq; simp [formatHeadersList, hblank]
    · by_cases hhead : goTrim head.1 = ""
      · simp [formatHeadersList, hhead]
      · simp [formatHeadersList, hhead, ih ⟨kv, hmem, hblank⟩]

/-- Helper: on success, `formatHeadersList` maps every entry through
`formatHeaderValue`, preserving keys and order. -/
theorem formatHeadersList_ok (s : Session) (hs out : List (String × String))
    (h : formatHeadersList s hs = .ok out) :
    out = hs.map (fun kv => (kv.1, formatHeaderValue s kv.1 kv.2)) := by
  induction hs generalizing out with
  | nil =>
    simp [formatHeadersList] at h
    subst h; rfl
  | cons head tail ih =>
    by_cases hhead : goTrim head.1 = ""
    · simp [formatHeadersList, hhead] at h
    · rw [formatHeadersList, if_neg hhead] at h
      cases htail : formatHeadersList s tail with
      | error e => rw [htail] at h; simp at h
      | ok out' =>
        rw [htail] at h
        simp only [Except.ok.injEq] at h
        simp [← h, ih out' htail]

/-- A string with a non-empty left part of a concatenation is non-empty. -/
theorem append_ne_empty_left (a b : String) (h : a ≠ "") : a ++ b ≠ "" := by
  intro hc
  apply h
  have hd := congrArg String.data hc
  rw [String.data_append] at hd
  rcases List.append_eq_nil.mp hd with ⟨ha, _⟩
  exact String.ext (by simpa using ha)

/-- C6 helper theorem block ends; claim theorems follow. -/
theorem formatHeaders_some (s : Session) (hs : List (String × String)) :
    formatHeaders s (some hs) = formatHeadersList s hs := rfl

/-- **C6.** For every session and header map, on formatting success each
entry whose lower-cased key is one of the three reserved names and whose
value is `""` or `"default"` comes out bound to the session's configured
default for that header, and every other entry's value passes through
unchanged (keys and order preserved). -/
theorem C6_reserved_header_defaulting (s : Session) (hs out : List (String × String))
    (key value : String) (h : formatHeaders s (some hs) = .ok out) :
    out = hs.map (fun kv => (kv.1, formatHeaderValue s kv.1 kv.2))
    ∧ ((goToLower key = "user-agent" ∧ (value = "" ∨ value = "default")) →
        formatHeaderValue s key value = s.userAgent)
    ∧ ((goToLower key = "sec-ch-ua" ∧ (value = "" ∨ value = "default")) →
        formatHeaderValue s key value = s.secChUa)
    ∧ ((goToLower key = "sec-ch-ua-platform" ∧ (value = "" ∨ value = "default")) →
        formatHeaderValue s key value = s.secChUaPlatform)
    ∧ (((goToLower key ≠ "user-agent" ∧ goToLower key ≠ "sec-ch-ua" ∧
          goToLower key ≠ "sec-ch-ua-platform") ∨ (value ≠ "" ∧ value ≠ "default")) →
        formatHeaderValue s key value = value) := by
  rw [formatHeaders_some] at h
  refine ⟨formatHeadersList_ok s hs out h, ?_, ?_, ?_, ?_⟩
  · rintro ⟨h1, h2⟩
    simp [formatHeaderValue, h1, h2]
  · rintro ⟨h1, h2⟩
    simp [formatHeaderValue, h1, h2]
  · rintro ⟨h1, h2⟩
    simp [formatHeaderValue, h1, h2]
  · rintro (⟨h1, h2, h3⟩ | ⟨h1, h2⟩)
    · simp [formatHeaderValue, h1, h2, h3]
    · simp [formatHeaderValue, h1, h2]

/-- Witness for C6 at a concrete session and header map: the sentinel
`"default"` under `User-Agent` is replaced by the session default, the
unreserved entry passes through. -/
theorem C6_reserved_header_defaulting_witness :
    [("User-Agent", "UA-default"), ("X-Foo", "bar")] =
      [("User-Agent", "default"), ("X-Foo", "bar")].map
        (fun kv => (kv.1, formatHeaderValue sessFix kv.1 kv.2))
    ∧ formatHeaderValue sessFix "User-Agent" "default" = sessFix.userAgent
    ∧ formatHeaderValue sessFix "X-Foo" "bar" = "bar" := by
  have h := C6_reserved_header_defaulting sessFix
    [("User-Agent", "default"), ("X-Foo", "bar")]
    [("User-Agent", "UA-default"), ("X-Foo", "bar")] "User-Agent" "default" (by decide)
  have h2 := C6_reserved_header_defaulting sessFix
    [("User-Agent", "default"), ("X-Foo", "bar")]
    [("User-Agent", "UA-default"), ("X-Foo", "bar")] "X-Foo" "bar" (by decide)
  exact ⟨h.1, h.2.1 ⟨by decide, Or.inr rfl⟩, h2.2.2.2.2 (Or.inl ⟨by decide, by decide, by decide⟩)⟩

/-- **C10.** `Close` on an already-closed or nil session returns nil,
leaves the state unchanged and performs no external call. -/
theorem C10_close_idempotent (s : Option Session) (h : IsValid s = false) :
    closeSession s = { err := none, state := s, effects := [] } := by
  simp [closeSession, h]

/-- Witness for C10: a nil session and a concrete closed session. -/
theorem C10_close_idempotent_witness :
    closeSession none = { err := none, state := none, effects := [] }
    ∧ closeSession (some { sessFix with clientPresent := false }) =
        { err := none, state := some { sessFix with clientPresent := false }, effects := [] } :=
  ⟨C10_close_idempotent none (by decide),
   C10_close_idempotent (some { sessFix with clientPresent := false }) (by decide)⟩

/-- After `Close`, the session state is invalid. -/
theorem closeSession_state_invalid (s : Option Session) :
    IsValid (closeSession s).state = false := by
  cases s with
  | none => simp [closeSession, IsValid]
  | some ss =>
    by_cases hc : ss.clientPresent
    · simp [closeSession, IsValid, hc, ClearCookies]
    · simp [closeSession, IsValid, hc]

/-- **C9.** Every operation invoked on the session state left by `Close`
reports the invalid-session failure and performs no external transport,
cookie-store or proxy call: the request executor returns the error response
without any transport call, and each cookie/proxy operation returns its
invalid-session result with an empty effect list (`GetCookie` reports by
returning nil). -/
theorem C9_operations_after_close (s : Option Session) (method : String)
    (request : RequestOptions) (randBytes : List Nat) (doFn : DoOracle)
    (name value proxy : String) (cookie : Option GoCookie) (targetURL : Option URLRef)
    (storeCookies : List (Option GoCookie)) :
    executeRequest (closeSession s).state method request randBytes doFn =
        RetryTrace.immediate { Response.zero with error := "session or client is nil" }
    ∧ SetCookies (closeSession s).state name value targetURL =
        (some "session or client is nil", [])
    ∧ SetCookiesWithOptions (closeSession s).state cookie targetURL =
        (some "session or client is nil", [])
    ∧ SetProxy (closeSession s).state proxy = (some "session or client is nil", [])
    ∧ ClearCookies (closeSession s).state = (some "session or client is nil", [])
    ∧ GetCookies (closeSession s).state targetURL storeCookies =
        (.error "session or client is nil", [])
    ∧ GetCookie (closeSession s).state name targetURL storeCookies = (none, []) := by
  have hinv := closeSession_state_invalid s
  have hexec : executeRequest (closeSession s).state method request randBytes doFn =
      RetryTrace.immediate { Response.zero with error := "session or client is nil" } := by
    cases hstate : (closeSession s).state with
    | none => simp [executeRequest]
    | some ss =>
      rw [hstate] at hinv
      simp [IsValid] at hinv
      simp [executeRequest, hinv]
  exact ⟨hexec, by simp [SetCookies, hinv], by simp [SetCookiesWithOptions, hinv],
    by simp [SetProxy, hinv], by simp [ClearCookies, hinv],
    by simp [GetCookies, hinv], by simp [GetCookie, hinv]⟩

/-- The retry budget is always at least 1 after the clamp. -/
theorem effectiveRetries_pos (m : Int) : 1 ≤ effectiveRetries m := by
  unfold effectiveRetries
  split
  · exact le_refl 1
  · omega

/-- Unfolding of the retry loop on its final allowed iteration. -/
theorem retryLoop_one (f : Nat → Nat → Response × Nat) (budget attempt tcalls : Nat)
    (last : Response) :
    retryLoop f budget attempt tcalls last 1 =
      (if (f attempt tcalls).1.error = "" then
        { response := (f attempt tcalls).1, attempts := 1,
          transportCalls := (f attempt tcalls).2, sleepsMs := [] }
      else
        { response := wrapMaxRetries budget (f attempt tcalls).1, attempts := 1,
          transportCalls := (f attempt tcalls).2, sleepsMs := [] }) := by
  rw [retryLoop.eq_def]

/-- Unfolding of the retry loop on a non-final iteration. -/
theorem retryLoop_succ_succ (f : Nat → Nat → Response × Nat) (budget attempt tcalls : Nat)
    (last : Response) (r : Nat) :
    retryLoop f budget attempt tcalls last (r + 2) =
      (if (f attempt tcalls).1.error = "" then
        { response := (f attempt tcalls).1, attempts := 1,
          transportCalls := (f attempt tcalls).2, sleepsMs := [] }
      else
        { response :=
            (retryLoop f budget (attempt + 1) (tcalls + (f attempt tcalls).2)
              (f attempt tcalls).1 (r + 1)).response,
          attempts :=
            (retryLoop f budget (attempt + 1) (tcalls + (f attempt tcalls).2)
              (f attempt tcalls).1 (r + 1)).attempts + 1,
          transportCalls :=
            (retryLoop f budget (attempt + 1) (tcalls + (f attempt tcalls).2)
              (f attempt tcalls).1 (r + 1)).transportCalls + (f attempt tcalls).2,
          sleepsMs :=
            100 * (attempt + 1) ::
              (retryLoop f budget (attempt + 1) (tcalls + (f attempt tcalls).2)
                (f attempt tcalls).1 (r + 1)).sleepsMs }) := by
  rw [retryLoop.eq_def]

/-- Behaviour of the retry loop when every attempt yields the same failing
response with the same per-attempt transport-call count `d`. -/
theorem retryLoop_const_fail (resp : Response) (d : Nat) (h : resp.error ≠ "")
    (budget : Nat) (r : Nat) :
    ∀ (attempt tcalls : Nat) (last : Response),
    retryLoop (fun _ _ => (resp, d)) budget attempt tcalls last (r + 1) =
      { response := wrapMaxRetries budget resp, attempts := r + 1,
        transportCalls := (r + 1) * d,
        sleepsMs := (List.range r).map fun i => 100 * (attempt + 1 + i) } := by
  induction r with
  | zero =>
    intro attempt tcalls last
    rw [retryLoop_one, if_neg h]
    simp
  | succ r' ih =>
    intro attempt tcalls last
    rw [show r' + 1 + 1 = r' + 2 from rfl, retryLoop_succ_succ, if_neg h,
      ih (attempt + 1) (tcalls + d) resp]
    simp only [RetryTrace.mk.injEq, true_and, and_true, eq_self_iff_true]
    refine ⟨by ring, ?_⟩
    rw [List.range_succ_eq_map, List.map_cons, List.map_map]
    refine congrArg₂ List.cons (by omega) ?_
    refine List.map_congr_left fun i _ => ?_
    simp only [Function.comp]
    omega

/-- Behaviour of the retry loop when the per-attempt function depends only
on the transport-call counter, fails on the first `N` calls and succeeds on
call `N`. -/
theorem retryLoop_fail_then_succeed (g : Nat → Response) (budget : Nat) (N : Nat) :
    ∀ (attempt tcalls : Nat) (last : Response) (remaining : Nat),
    N + 1 ≤ remaining →
    (∀ i, i < N → (g (tcalls + i)).error ≠ "") →
    (g (tcalls + N)).error = "" →
    retryLoop (fun _ t => (g t, 1)) budget attempt tcalls last remaining =
      { response := g (tcalls + N), attempts := N + 1, transportCalls := N + 1,
        sleepsMs := (List.range N).map fun i => 100 * (attempt + 1 + i) } := by
  induction N with
  | zero =>
    intro attempt tcalls last remaining hrem _hfail hsucc
    simp only [Nat.add_zero] at hsucc
    match remaining, hrem with
    | 1, _ =>
      rw [retryLoop_one, if_pos hsucc]
      simp
    | r + 2, _ =>
      rw [retryLoop_succ_succ, if_pos hsucc]
      simp
  | succ N ih =>
    intro attempt tcalls last remaining hrem hfail hsucc
    have hfail0 : (g tcalls).error ≠ "" := by
      have := hfail 0 (Nat.succ_pos N)
      simpa using this
    match remaining, hrem with
    | 1, hrem => exact absurd hrem (by omega)
    | r + 2, hrem =>
      rw [retryLoop_succ_succ, if_neg hfail0,
        ih (attempt + 1) (tcalls + 1) (g tcalls) (r + 1) (by omega)
          (fun i hi => by
            have := hfail (i + 1) (by omega)
            rwa [show tcalls + (i + 1) = tcalls + 1 + i by omega] at this)
          (by rwa [show tcalls + 1 + N = tcalls + (N + 1) by omega])]
      simp only [RetryTrace.mk.injEq, true_and, and_true, eq_self_iff_true]
      refine ⟨by rw [show tcalls + 1 + N = tcalls + (N + 1) by omega], ?_⟩
      rw [List.range_succ_eq_map, List.map_cons, List.map_map]
      refine congrArg₂ List.cons (by omega) ?_
      refine List.map_congr_left fun i _ => ?_
      simp only [Function.comp]
      omega

/-- **C1 counterexample.** With retry budget 3 and a transport whose
perform-request call always fails with error message `boom`, the returned
error is `max retries (3) exceeded: Request error: boom` — the response
handler first rewraps the transport failure as `Request error: boom` — and
so differs from the claimed `max retries (3) exceeded: boom`. -/
theorem C1_counterexample :
    (executeWithRetry sessFix plainRequest reqFix boomDo).response.error =
      "max retries (3) exceeded: Request error: boom"
    ∧ (executeWithRetry sessFix plainRequest reqFix boomDo).response.error ≠
      "max retries (3) exceeded: boom" := by
  refine ⟨by decide, by decide⟩

/-- **C1 (amended).** For every session with retry budget 3 whose headers
format successfully and a transport always failing with `boom`, the final
error is `max retries (3) exceeded: Request error: boom` (the per-attempt
transport failure is rewrapped by the response handler before the retry
wrapper adds its prefix). -/
theorem C1_always_fail_error_message (s : Session) (request : RequestOptions)
    (req : GoRequest) (hdrs : List (String × String))
    (hclient : s.clientPresent = true) (hmax : s.maxRetries = 3)
    (hhdr : formatHeaders s request.headers = .ok hdrs) :
    (executeWithRetry s request req boomDo).response.error =
      "max retries (3) exceeded: Request error: boom" := by
  have hstep : (fun (_attempt tcalls : Nat) => handleResponse s request req none (boomDo tcalls)) =
      (fun _ _ => ({ Response.zero with error := "Request error: boom" }, 1)) := by
    funext a t
    simp [handleResponse, hclient, hhdr, boomDo, Response.zero]
  have h3 : effectiveRetries s.maxRetries = 2 + 1 := by
    rw [hmax]; rfl
  unfold executeWithRetry
  rw [hstep, h3,
    retryLoop_const_fail { Response.zero with error := "Request error: boom" } 1
      (by decide) (2 + 1) 2 0 0 Response.zero]
  rfl

/-- Witness for the amended C1 at the concrete fixtures. -/
theorem C1_always_fail_error_message_witness :
    (executeWithRetry sessFix plainRequest reqFix boomDo).response.error =
      "max retries (3) exceeded: Request error: boom" :=
  C1_always_fail_error_message sessFix plainRequest reqFix [] rfl rfl (by decide)

/-- **C2 counterexample.** A Get on a request whose header map has a
whitespace-only key does not return immediately: with budget 3 it performs
three attempts, sleeps twice (100ms, 200ms), and wraps the header
validation error in the max-retries message — though indeed no transport
call is made. -/
theorem C2_counterexample :
    (Get (some sessFix) blankKeyRequest [] boomDo).sleepsMs = [100, 200]
    ∧ (Get (some sessFix) blankKeyRequest [] boomDo).transportCalls = 0
    ∧ (Get (some sessFix) blankKeyRequest [] boomDo).response.error =
        "max retries (" ++ toString (3 : Nat) ++
          ") exceeded: " ++ "Error formatting headers: header key cannot be empty" := by
  refine ⟨by decide, by decide, by decide⟩

/-- **C2 (amended).** A request whose header map contains an empty or
whitespace-only key never reaches the transport (zero network calls), but
the validation failure happens inside each retry attempt: the loop runs its
full budget, performs budget−1 backoff sleeps, and the final error IS
wrapped in the max-retries message. -/
theorem C2_blank_header_key_still_retried (s : Session) (request : RequestOptions)
    (req : GoRequest) (hs : List (String × String)) (doFn : DoOracle)
    (hclient : s.clientPresent = true)
    (hhs : request.headers = some hs)
    (hblank : ∃ kv ∈ hs, goTrim kv.1 = "") :
    (executeWithRetry s request req doFn).transportCalls = 0
    ∧ (executeWithRetry s request req doFn).sleepsMs.length =
        effectiveRetries s.maxRetries - 1
    ∧ (executeWithRetry s request req doFn).response.error =
        "max retries (" ++ toString (effectiveRetries s.maxRetries) ++
          ") exceeded: " ++ "Error formatting headers: header key cannot be empty" := by
  have herr := formatHeadersList_blank_key s hs hblank
  have hstep : (fun (_attempt tcalls : Nat) => handleResponse s request req none (doFn tcalls)) =
      (fun _ _ => ({ Response.zero with
        error := "Error formatting headers: header key cannot be empty" }, 0)) := by
    funext a t
    simp [handleResponse, hclient, formatHeaders, hhs, herr, Response.zero]
  obtain ⟨r, hr⟩ : ∃ r, effectiveRetries s.maxRetries = r + 1 :=
    ⟨effectiveRetries s.maxRetries - 1, by have := effectiveRetries_pos s.maxRetries; omega⟩
  unfold executeWithRetry
  rw [hstep, hr,
    retryLoop_const_fail { Response.zero with
        error := "Error formatting headers: header key cannot be empty" } 0
      (by decide) (r + 1) r 0 0 Response.zero]
  refine ⟨by simp, by simp, rfl⟩

/-- Witness for the amended C2 at the concrete fixtures. -/
theorem C2_blank_header_key_still_retried_witness :
    (executeWithRetry sessFix blankKeyRequest reqFix boomDo).transportCalls = 0
    ∧ (executeWithRetry sessFix blankKeyRequest reqFix boomDo).sleepsMs.length =
        effectiveRetries sessFix.maxRetries - 1
    ∧ (executeWithRetry sessFix blankKeyRequest reqFix boomDo).response.error =
        "max retries (" ++ toString (effectiveRetries sessFix.maxRetries) ++
          ") exceeded: " ++ "Error formatting headers: header key cannot be empty" :=
  C2_blank_header_key_still_retried sessFix blankKeyRequest reqFix [(" ", "v")] boomDo
    rfl rfl ⟨(" ", "v"), by decide, by decide⟩

/-- **C3.** With a valid session whose headers format successfully, a retry
budget of at least N+1 and a transport that fails on its first N calls and
succeeds on call N+1 with a readable body, the request operation returns
the successful response built unchanged from the transport's reply (empty
error string — the only success exit) and performs exactly N+1 transport
calls in N+1 attempts. -/
theorem C3_fail_n_then_succeed (s : Session) (request : RequestOptions) (req : GoRequest)
    (hdrs : List (String × String)) (doFn : DoOracle) (N : Nat) (resp : HTTPResp)
    (bodyBytes : List Nat)
    (hclient : s.clientPresent = true)
    (hhdr : formatHeaders s request.headers = .ok hdrs)
    (hbudget : N + 1 ≤ effectiveRetries s.maxRetries)
    (hfail : ∀ i, i < N → ∃ e, doFn i = .error e ∧ e ≠ "")
    (hsucc : doFn N = .ok resp) (hread : resp.bodyRead = .ok bodyBytes) :
    (executeWithRetry s request req doFn).response =
      { url := some (match resp.location with | some loc => loc | none => req.url),
        body := bodyBytes, statusCode := resp.statusCode, headers := resp.headers,
        cookies := resp.cookies, error := "" }
    ∧ (executeWithRetry s request req doFn).transportCalls = N + 1
    ∧ (executeWithRetry s request req doFn).attempts = N + 1 := by
  have hsnd : ∀ t, (handleResponse s request req none (doFn t)).2 = 1 := by
    intro t
    cases hdo : doFn t with
    | error e => simp [handleResponse, hclient, hhdr, hdo]
    | ok r0 =>
      cases hb : r0.bodyRead <;> simp [handleResponse, hclient, hhdr, hdo, hb]
  have hpair : (fun (_attempt tcalls : Nat) => handleResponse s request req none (doFn tcalls)) =
      (fun _ t => ((handleResponse s request req none (doFn t)).1, 1)) := by
    funext a t
    rw [← hsnd t]
  have hGfail : ∀ i, i < N →
      ((handleResponse s request req none (doFn (0 + i))).1).error ≠ "" := by
    intro i hi
    obtain ⟨e, hde, _⟩ := hfail i hi
    simp only [Nat.zero_add]
    simp [handleResponse, hclient, hhdr, hde]
    exact fun hcon => append_ne_empty_left "Request error: " e (by decide) hcon
  have hGsucc : ((handleResponse s request req none (doFn (0 + N))).1).error = "" := by
    simp only [Nat.zero_add]
    simp [handleResponse, hclient, hhdr, hsucc, hread]
  unfold executeWithRetry
  rw [hpair,
    retryLoop_fail_then_succeed (fun t => (handleResponse s request req none (doFn t)).1)
      (effectiveRetries s.maxRetries) N 0 0 Response.zero (effectiveRetries s.maxRetries)
      hbudget hGfail hGsucc]
  refine ⟨?_, rfl, rfl⟩
  simp only [Nat.zero_add]
  simp [handleResponse, hclient, hhdr, hsucc, hread, Response.zero]

/-- Witness for C3 with a transport failing twice then succeeding on a
budget-3 session: three transport calls, successful response returned. -/
theorem C3_fail_n_then_succeed_witness :
    (executeWithRetry sessFix plainRequest reqFix failTwiceDo).response =
      { url := some reqFix.url, body := [104, 105], statusCode := 200,
        headers := [("server", "t")], cookies := [], error := "" }
    ∧ (executeWithRetry sessFix plainRequest reqFix failTwiceDo).transportCalls = 2 + 1
    ∧ (executeWithRetry sessFix plainRequest reqFix failTwiceDo).attempts = 2 + 1 :=
  C3_fail_n_then_succeed sessFix plainRequest reqFix [] failTwiceDo 2 okResp [104, 105]
    rfl (by decide) (by decide)
    (fun i hi => ⟨"boom", by simp [failTwiceDo, hi], by decide⟩) rfl rfl

/-- Unfolding of the retry loop at an exhausted iteration count. -/
theorem retryLoop_zero (f : Nat → Nat → Response × Nat) (budget attempt tcalls : Nat)
    (last : Response) :
    retryLoop f budget attempt tcalls last 0 =
      RetryTrace.immediate (wrapMaxRetries budget last) := by
  rw [retryLoop.eq_def]

/-- Every response out of `handleResponse` keeps the error channel and the
status/body channel mutually exclusive. -/
theorem handleResponse_error_inv (s : Session) (request : RequestOptions) (req : GoRequest)
    (errParam : Option String) (doResult : Except String HTTPResp) :
    (handleResponse s request req errParam doResult).1.error ≠ "" →
    (handleResponse s request req errParam doResult).1.statusCode = 0
    ∧ (handleResponse s request req errParam doResult).1.body = [] := by
  cases errParam with
  | some e => simp [handleResponse, Response.zero]
  | none =>
    by_cases hc : s.clientPresent
    · cases hh : formatHeaders s request.headers with
      | error e => simp [handleResponse, hc, hh, Response.zero]
      | ok hdrs =>
        cases doResult with
        | error e => simp [handleResponse, hc, hh, Response.zero]
        | ok r0 =>
          cases hb : r0.bodyRead with
          | error e => simp [handleResponse, hc, hh, hb, Response.zero]
          | ok bs => simp [handleResponse, hc, hh, hb, Response.zero]
    · simp [handleResponse, hc, Response.zero]

/-- The retry loop preserves channel exclusivity: if every attempt's
response satisfies it and the carried last response has zero status and
empty body, so does the loop's final response. -/
theorem retryLoop_error_inv (f : Nat → Nat → Response × Nat) (budget : Nat)
    (hf : ∀ a t, (f a t).1.error ≠ "" → (f a t).1.statusCode = 0 ∧ (f a t).1.body = []) :
    ∀ (remaining attempt tcalls : Nat) (last : Response),
    last.statusCode = 0 → last.body = [] →
    ((retryLoop f budget attempt tcalls last remaining).response.error ≠ "" →
      (retryLoop f budget attempt tcalls last remaining).response.statusCode = 0
      ∧ (retryLoop f budget attempt tcalls last remaining).response.body = []) := by
  intro remaining
  induction remaining with
  | zero =>
    intro attempt tcalls last hs hb _
    simp [retryLoop_zero, RetryTrace.immediate, wrapMaxRetries, hs, hb]
  | succ r ih =>
    intro attempt tcalls last hs hb
    cases r with
    | zero =>
      rw [retryLoop_one]
      by_cases he : (f attempt tcalls).1.error = ""
      · rw [if_pos he]
        simp [he]
      · rw [if_neg he]
        intro _
        exact ⟨by simpa [wrapMaxRetries] using (hf attempt tcalls he).1,
               by simpa [wrapMaxRetries] using (hf attempt tcalls he).2⟩
    | succ r' =>
      rw [retryLoop_succ_succ]
      by_cases he : (f attempt tcalls).1.error = ""
      · rw [if_pos he]
        simp [he]
      · rw [if_neg he]
        intro hcon
        have hstep := hf attempt tcalls he
        exact ih (attempt + 1) (tcalls + (f attempt tcalls).2) (f attempt tcalls).1
          hstep.1 hstep.2 hcon

/-- **C4.** For every response produced by a public request operation (all
seven share `executeRequest`), a non-empty error string implies status code
0 and an empty body: the two signalling channels never both carry
information. -/
theorem C4_error_channel_exclusive (s : Option Session) (method : String)
    (request : RequestOptions) (randBytes : List Nat) (doFn : DoOracle)
    (herr : (executeRequest s method request randBytes doFn).response.error ≠ "") :
    (executeRequest s method request randBytes doFn).response.statusCode = 0
    ∧ (executeRequest s method request randBytes doFn).response.body = [] := by
  cases s with
  | none => simp [executeRequest, RetryTrace.immediate, Response.zero]
  | some ss =>
    by_cases hc : ss.clientPresent
    case neg => simp [executeRequest, hc, RetryTrace.immediate, Response.zero]
    case pos =>
    by_cases hu : goTrim request.url = ""
    · simp [executeRequest, hc, hu, RetryTrace.immediate, Response.zero]
    · cases hbu : buildURL request.url request.params with
      | error e => simp [executeRequest, hc, hu, hbu, RetryTrace.immediate, Response.zero]
      | ok purl =>
        cases hfb : formatBody randBytes request.headers request.body with
        | error e =>
          simp [executeRequest, hc, hu, hbu, hfb, RetryTrace.immediate, Response.zero]
        | ok pr =>
          obtain ⟨bodyReader, contentType⟩ := pr
          have hred : executeRequest (some ss) method request randBytes doFn =
              executeWithRetry ss
                { request with headers := applyContentTypeHeader request.headers contentType }
                { method := method, url := purl, body := bodyReader } doFn := by
            simp [executeRequest, hc, hu, hbu, hfb]
          rw [hred] at herr ⊢
          unfold executeWithRetry at herr ⊢
          exact retryLoop_error_inv _ _
            (fun a t => handleResponse_error_inv ss _ _ none (doFn t)) _ 0 0
            Response.zero rfl rfl herr

/-- Witness for C4: the invalid-session response has a non-empty error and
indeed zero status and empty body. -/
theorem C4_error_channel_exclusive_witness :
    (executeRequest none "GET" plainRequest [] boomDo).response.statusCode = 0
    ∧ (executeRequest none "GET" plainRequest [] boomDo).response.body = [] :=
  C4_error_channel_exclusive none "GET" plainRequest [] boomDo (by decide)

/-- A prefix occurrence is an occurrence. -/
theorem containsSubAux_of_isPrefixOf (n h : List Char) (hp : n.isPrefixOf h = true) :
    containsSubAux n h = true := by
  cases h with
  | nil => simpa [containsSubAux] using hp
  | cons c rest => simp [containsSubAux, hp]

/-- `goContains (a ++ b) a` always holds. -/
theorem goContains_left_append (a b : String) : goContains (a ++ b) a = true := by
  show containsSubAux a.data (a ++ b).data = true
  rw [String.data_append]
  exact containsSubAux_of_isPrefixOf _ _
    (List.isPrefixOf_iff_prefix.mpr (List.prefix_append _ _))

/-- An occurring needle's characters all occur in the haystack. -/
theorem containsSubAux_subset (n h : List Char) (hc : containsSubAux n h = true) :
    ∀ c ∈ n, c ∈ h := by
  induction h with
  | nil =>
    intro c hcn
    have hn : n = [] := by
      cases n with
      | nil => rfl
      | cons x xs => simp [containsSubAux, List.isPrefixOf] at hc
    subst hn
    cases hcn
  | cons x rest ih =>
    intro c hcn
    rw [containsSubAux, Bool.or_eq_true] at hc
    rcases hc with h1 | h2
    · exact (List.isPrefixOf_iff_prefix.mp h1).subset hcn
    · exact List.mem_cons_of_mem x (ih h2 c hcn)

/-- Every character the boundary model emits is a hex digit. -/
theorem hexStr_chars (r : List Nat) : ∀ c ∈ (hexStr r).data, c ∈ hexChars := by
  intro c hc
  have hd : (hexStr r).data =
      r.flatMap (fun b => [hexChars.getD (b / 16 % 16) '0', hexChars.getD (b % 16) '0']) := rfl
  rw [hd] at hc
  rcases List.mem_flatMap.mp hc with ⟨b, _, hcb⟩
  have hmem : ∀ n : Nat, hexChars.getD (n % 16) '0' ∈ hexChars := by
    intro n
    have hlt : n % 16 < hexChars.length := Nat.mod_lt n (by decide)
    rw [List.getD_eq_getElem _ _ hlt]
    exact List.getElem_mem hlt
  rcases List.mem_cons.mp hcb with rfl | hcb'
  · exact hmem (b / 16)
  · rcases List.mem_cons.mp hcb' with rfl | hnil
    · exact hmem b
    · cases hnil

/-- The boundary model emits two characters per random byte. -/
theorem hexStr_length (r : List Nat) : (hexStr r).length = 2 * r.length := by
  show (r.flatMap fun b =>
    [hexChars.getD (b / 16 % 16) '0', hexChars.getD (b % 16) '0']).length = 2 * r.length
  induction r with
  | nil => rfl
  | cons b rest ih =>
    rw [List.flatMap_cons, List.length_append, ih, List.length_cons]
    simp
    ring

/-- A boundary generated from at least one random byte is non-empty. -/
theorem hexStr_ne_empty (r : List Nat) (h : r ≠ []) : hexStr r ≠ "" := by
  intro hc
  have hl := congrArg String.length hc
  rw [hexStr_length] at hl
  have : r.length = 0 := by
    have hz : ("" : String).length = 0 := rfl
    omega
  exact h (List.length_eq_zero.mp this)

/-- The multipart content type contains the multipart marker. -/
theorem multipart_ct_contains (b : String) :
    goContains ("multipart/form-data; boundary=" ++ b) "multipart/form-data" = true := by
  rw [show ("multipart/form-data; boundary=" : String) =
      "multipart/form-data" ++ "; boundary=" by decide, String.append_assoc]
  exact goContains_left_append _ _

/-- The multipart content type with a hex boundary never matches the
form-urlencoded check (no `w` occurs in it). -/
theorem multipart_ct_not_form (b : String) (hb : ∀ c ∈ b.data, c ∈ hexChars) :
    goContains ("multipart/form-data; boundary=" ++ b)
      "application/x-www-form-urlencoded" = false := by
  by_contra hcon
  have htrue : goContains ("multipart/form-data; boundary=" ++ b)
      "application/x-www-form-urlencoded" = true := by
    revert hcon
    cases goContains ("multipart/form-data; boundary=" ++ b)
      "application/x-www-form-urlencoded" <;> simp
  have hw : 'w' ∈ ("multipart/form-data; boundary=" ++ b).data :=
    containsSubAux_subset _ _ htrue 'w' (by decide)
  rw [String.data_append] at hw
  rcases List.mem_append.mp hw with h1 | h2
  · exact absurd h1 (by decide)
  · exact absurd (hb 'w' h2) (by decide)

/-- The multipart content type with a hex boundary never matches the
text/plain check (no `x` occurs in it). -/
theorem multipart_ct_not_text (b : String) (hb : ∀ c ∈ b.data, c ∈ hexChars) :
    goContains ("multipart/form-data; boundary=" ++ b) "text/plain" = false := by
  by_contra hcon
  have htrue : goContains ("multipart/form-data; boundary=" ++ b) "text/plain" = true := by
    revert hcon
    cases goContains ("multipart/form-data; boundary=" ++ b) "text/plain" <;> simp
  have hw : 'x' ∈ ("multipart/form-data; boundary=" ++ b).data :=
    containsSubAux_subset _ _ htrue 'x' (by decide)
  rw [String.data_append] at hw
  rcases List.mem_append.mp hw with h1 | h2
  · exact absurd h1 (by decide)
  · exact absurd (hb 'x' h2) (by decide)

/-- Entries under other keys survive a `map[string]string` assignment. -/
theorem mem_assocSet_of_ne (hs : List (String × String)) (k v : String)
    (kv : String × String) (hmem : kv ∈ hs) (hne : kv.1 ≠ k) :
    kv ∈ assocSet hs k v := by
  by_cases hany : (hs.any fun e => e.1 = k) = true
  · simp only [assocSet, hany, if_true]
    exact List.mem_map.mpr ⟨kv, hmem, by simp [hne]⟩
  · simp only [assocSet, hany, if_false]
    exact List.mem_append_left _ hmem

/-- **C7 counterexample.** With a multipart body declared under the
mixed-case key `Content-Type`, the executor's header update writes the
boundary-bearing value under a NEW lowercase `content-type` entry: the
caller's declared entry survives unchanged with its boundary-less value,
so it is not replaced. -/
theorem C7_counterexample :
    formatBody [0] (some [("Content-Type", "multipart/form-data")])
        (some (.strMap [("a", "b")])) =
      .ok (some "--00\r\na\r\nb\r\n--00--\r\n", "multipart/form-data; boundary=00")
    ∧ applyContentTypeHeader (some [("Content-Type", "multipart/form-data")])
        "multipart/form-data; boundary=00" =
      some [("Content-Type", "multipart/form-data"),
            ("content-type", "multipart/form-data; boundary=00")]
    ∧ ("Content-Type", "multipart/form-data") ∈
        [("Content-Type", "multipart/form-data"),
         ("content-type", "multipart/form-data; boundary=00")] := by
  refine ⟨by decide, by decide, by decide⟩

/-- **C7 (amended).** For every non-nil header map and successfully encoded
body, the executor writes the generated boundary-bearing content type under
the exact lowercase key `content-type` exactly when the resolved content
type selects the multipart branch — replacing a caller entry only when its
key is byte-for-byte `content-type` and leaving every other entry (a
differently-cased declared content type included) unchanged; for every
non-multipart encoding the whole header map is left unchanged. -/
theorem C7_multipart_content_type_update (hs : List (String × String)) (body : BodyVal)
    (randBytes : List Nat) (stream : Option String) (ct : String)
    (h : formatBody randBytes (some hs) (some body) = .ok (stream, ct)) :
    (selectBranch (resolveContentType (some hs) body) = .multipart →
      applyContentTypeHeader (some hs) ct = some (assocSet hs "content-type" ct)
      ∧ ∀ kv ∈ hs, kv.1 ≠ "content-type" → kv ∈ assocSet hs "content-type" ct)
    ∧ (selectBranch (resolveContentType (some hs) body) ≠ .multipart →
      applyContentTypeHeader (some hs) ct = some hs) := by
  cases hb : selectBranch (resolveContentType (some hs) body) with
  | multipart =>
    simp only [formatBody, hb] at h
    cases body with
    | strMap entries =>
      simp only [formatMultipartFormData, Except.ok.injEq, Prod.mk.injEq] at h
      obtain ⟨-, hct⟩ := h
      refine ⟨fun _ => ?_, fun hcon => absurd rfl hcon⟩
      constructor
      · rw [← hct]
        simp [applyContentTypeHeader,
          multipart_ct_contains (hexStr randBytes) ,
          append_ne_empty_left "multipart/form-data; boundary=" (hexStr randBytes) (by decide)]
      · intro kv hmem hne
        exact mem_assocSet_of_ne hs "content-type" ct kv hmem hne
    | str s => simp [formatMultipartFormData] at h
    | other j => simp [formatMultipartFormData] at h
    | unmarshalable m => simp [formatMultipartFormData] at h
  | form =>
    simp only [formatBody, hb] at h
    cases body with
    | strMap entries =>
      simp only [formatFormURLEncoded, Except.ok.injEq, Prod.mk.injEq] at h
      obtain ⟨-, hct⟩ := h
      refine ⟨fun hcon => by simp at hcon, fun _ => ?_⟩
      rw [← hct]
      simp [applyContentTypeHeader]
      intro hcon
      exact absurd hcon (by decide)
    | str s => simp [formatFormURLEncoded] at h
    | other j => simp [formatFormURLEncoded] at h
    | unmarshalable m => simp [formatFormURLEncoded] at h
  | text =>
    simp only [formatBody, hb] at h
    cases body with
    | str s =>
      simp only [formatTextPlain, Except.ok.injEq, Prod.mk.injEq] at h
      obtain ⟨-, hct⟩ := h
      refine ⟨fun hcon => by simp at hcon, fun _ => ?_⟩
      rw [← hct]
      simp [applyContentTypeHeader]
      intro hcon
      exact absurd hcon (by decide)
    | strMap entries => simp [formatTextPlain] at h
    | other j => simp [formatTextPlain] at h
    | unmarshalable m => simp [formatTextPlain] at h
  | json =>
    simp only [formatBody, hb] at h
    cases hm : jsonMarshal body with
    | error e => simp [formatJSON, hm] at h
    | ok j =>
      simp only [formatJSON, hm, Except.ok.injEq, Prod.mk.injEq] at h
      obtain ⟨-, hct⟩ := h
      refine ⟨fun hcon => by simp at hcon, fun _ => ?_⟩
      rw [← hct]
      simp [applyContentTypeHeader]
      intro hcon
      exact absurd hcon (by decide)

/-- Witness for the amended C7: on the multipart fixture the update step
assigns the exact lowercase `content-type` key. -/
theorem C7_multipart_content_type_update_witness :
    applyContentTypeHeader (some [("Content-Type", "multipart/form-data")])
        "multipart/form-data; boundary=00" =
      some (assocSet [("Content-Type", "multipart/form-data")] "content-type"
        "multipart/form-data; boundary=00") := by
  have h := C7_multipart_content_type_update [("Content-Type", "multipart/form-data")]
    (.strMap [("a", "b")]) [0] (some "--00\r\na\r\nb\r\n--00--\r\n")
    "multipart/form-data; boundary=00" (by decide)
  exact (h.1 (by decide)).1

/-- **C8.** Feeding the content type produced by a successful body encoding
back into the encoder's content-type detection selects the same branch that
produced it, and the multipart branch always emits
`multipart/form-data; boundary=` followed by a freshly generated non-empty
boundary (two hex characters per random byte drawn). -/
theorem C8_content_type_roundtrip (headers : Option (List (String × String)))
    (body : BodyVal) (randBytes : List Nat) (stream : Option String) (ct : String)
    (hrand : randBytes.length = 30)
    (h : formatBody randBytes headers (some body) = .ok (stream, ct)) :
    selectBranch ct = selectBranch (resolveContentType headers body)
    ∧ (selectBranch (resolveContentType headers body) = .multipart →
        ct = "multipart/form-data; boundary=" ++ hexStr randBytes
        ∧ hexStr randBytes ≠ "") := by
  cases hb : selectBranch (resolveContentType headers body) with
  | multipart =>
    simp only [formatBody, hb] at h
    cases body with
    | strMap entries =>
      simp only [formatMultipartFormData, Except.ok.injEq, Prod.mk.injEq] at h
      obtain ⟨-, hct⟩ := h
      have hnil : randBytes ≠ [] := by
        intro hcon
        rw [hcon] at hrand
        simp at hrand
      refine ⟨?_, fun _ => ⟨hct.symm, hexStr_ne_empty randBytes hnil⟩⟩
      rw [← hct]
      unfold selectBranch
      rw [multipart_ct_not_form (hexStr randBytes) (hexStr_chars randBytes),
        multipart_ct_not_text (hexStr randBytes) (hexStr_chars randBytes),
        multipart_ct_contains (hexStr randBytes)]
      simp
    | str s => simp [formatMultipartFormData] at h
    | other j => simp [formatMultipartFormData] at h
    | unmarshalable m => simp [formatMultipartFormData] at h
  | form =>
    simp only [formatBody, hb] at h
    cases body with
    | strMap entries =>
      simp only [formatFormURLEncoded, Except.ok.injEq, Prod.mk.injEq] at h
      obtain ⟨-, hct⟩ := h
      exact ⟨by rw [← hct]; decide, fun hcon => by simp at hcon⟩
    | str s => simp [formatFormURLEncoded] at h
    | other j => simp [formatFormURLEncoded] at h
    | unmarshalable m => simp [formatFormURLEncoded] at h
  | text =>
    simp only [formatBody, hb] at h
    cases body with
    | str s =>
      simp only [formatTextPlain, Except.ok.injEq, Prod.mk.injEq] at h
      obtain ⟨-, hct⟩ := h
      exact ⟨by rw [← hct]; decide, fun hcon => by simp at hcon⟩
    | strMap entries => simp [formatTextPlain] at h
    | other j => simp [formatTextPlain] at h
    | unmarshalable m => simp [formatTextPlain] at h
  | json =>
    simp only [formatBody, hb] at h
    cases hm : jsonMarshal body with
    | error e => simp [formatJSON, hm] at h
    | ok j =>
      simp only [formatJSON, hm, Except.ok.injEq, Prod.mk.injEq] at h
      obtain ⟨-, hct⟩ := h
      exact ⟨by rw [← hct]; decide, fun hcon => by simp at hcon⟩

/-- Witness for C8 on the form-urlencoded fixture with 30 random bytes. -/
theorem C8_content_type_roundtrip_witness :
    selectBranch "application/x-www-form-urlencoded" =
      selectBranch (resolveContentType
        (some [("content-type", "application/x-www-form-urlencoded")])
        (.strMap [("a", "b")]))
    ∧ (selectBranch (resolveContentType
        (some [("content-type", "application/x-www-form-urlencoded")])
        (.strMap [("a", "b")])) = .multipart →
        "application/x-www-form-urlencoded" =
          "multipart/form-data; boundary=" ++ hexStr (List.replicate 30 0)
        ∧ hexStr (List.replicate 30 0) ≠ "") :=
  C8_content_type_roundtrip (some [("content-type", "application/x-www-form-urlencoded")])
    (.strMap [("a", "b")]) (List.replicate 30 0) (some "a=b")
    "application/x-www-form-urlencoded" (by simp) (by decide)

/-- `cutChar` on a list not containing the separator. -/
theorem cutChar_not_mem (c : Char) (l : List Char) (h : c ∉ l) : cutChar c l = (l, none) := by
  induction l with
  | nil => rfl
  | cons x xs ih =>
    have hx : ¬x = c := fun hc => h (hc ▸ List.mem_cons_self x xs)
    simp [cutChar, hx, ih fun hm => h (List.mem_cons_of_mem x hm)]

/-- `cutChar` cuts at the first separator occurrence. -/
theorem cutChar_append (c : Char) (p q : List Char) (h : c ∉ p) :
    cutChar c (p ++ c :: q) = (p, some q) := by
  induction p with
  | nil => simp [cutChar]
  | cons x p' ih =>
    have hx : ¬x = c := fun hc => h (hc ▸ List.mem_cons_self x p')
    simp [cutChar, hx, ih fun hm => h (List.mem_cons_of_mem x hm)]

/-- Inversion of a successful `cutChar`. -/
theorem cutChar_eq_some (c : Char) (l pre post : List Char)
    (h : cutChar c l = (pre, some post)) : l = pre ++ c :: post ∧ c ∉ pre := by
  induction l generalizing pre with
  | nil => simp [cutChar] at h
  | cons x xs ih =>
    by_cases hx : x = c
    · rw [cutChar, if_pos hx] at h
      obtain ⟨h1, h2⟩ := Prod.mk.injEq _ _ _ _ ▸ h
      obtain rfl := h1.symm
      obtain rfl := Option.some.inj h2
      simp [hx]
    · rw [cutChar, if_neg hx] at h
      rcases hr : cutChar c xs with ⟨pre', opt⟩
      rw [hr] at h
      obtain ⟨h1, h2⟩ := Prod.mk.injEq _ _ _ _ ▸ h
      cases opt with
      | none => cases h2
      | some post' =>
        obtain rfl := Option.some.inj h2
        obtain ⟨hxs, hpre'⟩ := ih pre' hr
        constructor
        · rw [← h1, hxs]
          rfl
        · rw [← h1]
          intro hm
          rcases List.mem_cons.mp hm with hceq | hcm
          · exact hx hceq.symm
          · exact hpre' hcm

/-- Inversion of a separator-free `cutChar`. -/
theorem cutChar_eq_none (c : Char) (l pre : List Char)
    (h : cutChar c l = (pre, none)) : pre = l ∧ c ∉ l := by
  induction l generalizing pre with
  | nil =>
    simp [cutChar] at h
    simp [h]
  | cons x xs ih =>
    by_cases hx : x = c
    · rw [cutChar, if_pos hx] at h
      obtain ⟨-, h2⟩ := Prod.mk.injEq _ _ _ _ ▸ h
      cases h2
    · rw [cutChar, if_neg hx] at h
      rcases hr : cutChar c xs with ⟨pre', opt⟩
      rw [hr] at h
      obtain ⟨h1, h2⟩ := Prod.mk.injEq _ _ _ _ ▸ h
      cases opt with
      | some post' => cases h2
      | none =>
        obtain ⟨hpe, hcm⟩ := ih pre' hr
        refine ⟨by rw [← h1, hpe], ?_⟩
        intro hm
        rcases List.mem_cons.mp hm with hceq | hm'
        · exact hx hceq.symm
        · exact hcm hm'

/-- `splitOnChar` on a list not containing the separator. -/
theorem splitOnChar_not_mem (c : Char) (l : List Char) (h : c ∉ l) :
    splitOnChar c l = [l] := by
  induction l with
  | nil => rfl
  | cons x xs ih =>
    have hx : ¬x = c := fun hc => h (hc ▸ List.mem_cons_self x xs)
    simp [splitOnChar, hx, ih fun hm => h (List.mem_cons_of_mem x hm)]

/-- `splitOnChar` peels the first separator-free chunk. -/
theorem splitOnChar_append (c : Char) (p q : List Char) (h : c ∉ p) :
    splitOnChar c (p ++ c :: q) = p :: splitOnChar c q := by
  induction p with
  | nil => simp [splitOnChar]
  | cons x p' ih =>
    have hx : ¬x = c := fun hc => h (hc ▸ List.mem_cons_self x p')
    simp [splitOnChar, hx, ih fun hm => h (List.mem_cons_of_mem x hm)]

/-- The separator never occurs inside a chunk of `splitOnChar`. -/
theorem mem_splitOnChar_not_mem (c : Char) (l : List Char) :
    ∀ seg ∈ splitOnChar c l, c ∉ seg := by
  induction l with
  | nil =>
    intro seg hs
    simp [splitOnChar] at hs
    simp [hs]
  | cons x xs ih =>
    intro seg hs
    by_cases hx : x = c
    · rw [splitOnChar, if_pos hx] at hs
      rcases List.mem_cons.mp hs with rfl | hmem
      · simp
      · exact ih seg hmem
    · rw [splitOnChar, if_neg hx] at hs
      rcases hsp : splitOnChar c xs with _ | ⟨h0, t0⟩
      · rw [hsp] at hs
        simp at hs
        subst hs
        simp
        exact fun hc => hx hc.symm
      · rw [hsp] at hs
        rcases List.mem_cons.mp hs with rfl | hmem
        · intro hcm
          rcases List.mem_cons.mp hcm with hceq | hch
          · exact hx hceq.symm
          · exact ih h0 (hsp ▸ List.mem_cons_self _ _) hch
        · exact ih seg (hsp ▸ List.mem_cons_of_mem _ hmem)

/-- Every character of a `splitOnChar` chunk comes from the input. -/
theorem mem_splitOnChar_subset (c : Char) (l : List Char) :
    ∀ seg ∈ splitOnChar c l, ∀ y ∈ seg, y ∈ l := by
  induction l with
  | nil =>
    intro seg hs
    simp [splitOnChar] at hs
    simp [hs]
  | cons x xs ih =>
    intro seg hs y hy
    by_cases hx : x = c
    · rw [splitOnChar, if_pos hx] at hs
      rcases List.mem_cons.mp hs with rfl | hmem
      · cases hy
      · exact List.mem_cons_of_mem x (ih seg hmem y hy)
    · rw [splitOnChar, if_neg hx] at hs
      rcases hsp : splitOnChar c xs with _ | ⟨h0, t0⟩
      · rw [hsp] at hs
        simp at hs
        subst hs
        simp at hy
        simp [hy]
      · rw [hsp] at hs
        rcases List.mem_cons.mp hs with rfl | hmem
        · rcases List.mem_cons.mp hy with rfl | hy'
          · exact List.mem_cons_self _ _
          · exact List.mem_cons_of_mem x (ih h0 (hsp ▸ List.mem_cons_self _ _) y hy')
        · exact List.mem_cons_of_mem x (ih seg (hsp ▸ List.mem_cons_of_mem _ hmem) y hy)

/-- Decoding one encoded `k=v` segment recovers the pair. -/
theorem parsePair_encode (k v : List Char) (h : '=' ∉ k) :
    parsePair (k ++ '=' :: v) = (k, v) := by
  simp [parsePair, cutChar_append '=' k v h]

/-- Parsed query pairs are automatically separator-free. -/
theorem parseQueryPairs_clean (q : List Char) :
    ∀ kv ∈ parseQueryPairs q, cleanKeyC kv.1 ∧ cleanValC kv.2 := by
  intro kv hkv
  rcases List.mem_filterMap.mp hkv with ⟨seg, hseg, hguard⟩
  by_cases hcond : seg = [] ∨ ';' ∈ seg
  · rw [if_pos hcond] at hguard
    cases hguard
  · rw [if_neg hcond] at hguard
    obtain rfl := Option.some.inj hguard
    push_neg at hcond
    obtain ⟨-, hsemi⟩ := hcond
    have hamp : '&' ∉ seg := mem_splitOnChar_not_mem '&' q seg hseg
    rcases hcut : cutChar '=' seg with ⟨pre, opt⟩
    cases opt with
    | some post =>
      obtain ⟨hseq, hpre⟩ := cutChar_eq_some '=' seg pre post hcut
      rw [hseq] at hamp hsemi
      simp only [parsePair, hcut]
      refine ⟨⟨fun hm => hamp (List.mem_append_left _ hm), hpre,
        fun hm => hsemi (List.mem_append_left _ hm)⟩,
        fun hm => hamp (List.mem_append_right _ (List.mem_cons_of_mem _ hm)),
        fun hm => hsemi (List.mem_append_right _ (List.mem_cons_of_mem _ hm))⟩
    | none =>
      obtain ⟨hpe, heq⟩ := cutChar_eq_none '=' seg pre hcut
      simp only [parsePair, hcut]
      subst hpe
      exact ⟨⟨hamp, heq, hsemi⟩, by simp [cleanValC]⟩

/-- `Values.Add` keeps the map separator-free. -/
theorem valuesAdd_good (m : Values) (k v : List Char)
    (hm : goodValues m) (hk : cleanKeyC k) (hv : cleanValC v) :
    goodValues (valuesAdd m k v) := by
  induction m with
  | nil =>
    intro e he
    simp [valuesAdd] at he
    subst he
    refine ⟨hk, fun x hx => ?_⟩
    simp at hx
    subst hx
    exact hv
  | cons e0 rest ih =>
    obtain ⟨k0, vs0⟩ := e0
    intro e he
    by_cases hke : k0 = k
    · rw [valuesAdd, if_pos hke] at he
      rcases List.mem_cons.mp he with rfl | hmem
      · obtain ⟨hgk, hgv⟩ := hm (k0, vs0) (List.mem_cons_self _ _)
        refine ⟨hgk, fun x hx => ?_⟩
        rcases List.mem_append.mp hx with hx1 | hx2
        · exact hgv x hx1
        · simp at hx2
          subst hx2
          exact hv
      · exact hm e (List.mem_cons_of_mem _ hmem)
    · rw [valuesAdd, if_neg hke] at he
      rcases List.mem_cons.mp he with rfl | hmem
      · exact hm (k0, vs0) (List.mem_cons_self _ _)
      · exact ih (fun e' he' => hm e' (List.mem_cons_of_mem _ he')) e hmem

/-- Grouping separator-free pairs yields a separator-free map. -/
theorem foldl_valuesAdd_good (ps : List (List Char × List Char)) :
    ∀ m, goodValues m → (∀ kv ∈ ps, cleanKeyC kv.1 ∧ cleanValC kv.2) →
    goodValues (ps.foldl (fun acc kv => valuesAdd acc kv.1 kv.2) m) := by
  induction ps with
  | nil => intro m hm _; exact hm
  | cons p rest ih =>
    intro m hm hps
    rw [List.foldl_cons]
    exact ih _
      (valuesAdd_good m p.1 p.2 hm (hps p (List.mem_cons_self _ _)).1
        (hps p (List.mem_cons_self _ _)).2)
      (fun kv hkv => hps kv (List.mem_cons_of_mem _ hkv))

/-- The extra-parameter fold (blank keys skipped) keeps the map
separator-free when the supplied parameters are separator-free. -/
theorem foldl_params_good (P : List (String × String)) :
    ∀ m, goodValues m → (∀ kv ∈ P, cleanKey kv.1 ∧ cleanVal kv.2) →
    goodValues (P.foldl
      (fun acc kv => if goTrim kv.1 = "" then acc else valuesAdd acc kv.1.data kv.2.data) m) := by
  induction P with
  | nil => intro m hm _; exact hm
  | cons p rest ih =>
    intro m hm hps
    rw [List.foldl_cons]
    by_cases hp : goTrim p.1 = ""
    · rw [if_pos hp]
      exact ih m hm fun kv hkv => hps kv (List.mem_cons_of_mem _ hkv)
    · rw [if_neg hp]
      exact ih _
        (valuesAdd_good m p.1.data p.2.data hm (hps p (List.mem_cons_self _ _)).1
          (hps p (List.mem_cons_self _ _)).2)
        (fun kv hkv => hps kv (List.mem_cons_of_mem _ hkv))

/-- `Values.Add` appends exactly one pair, up to permutation. -/
theorem flatPairs_valuesAdd (m : Values) (k v : List Char) :
    (flatPairs (valuesAdd m k v)).Perm (flatPairs m ++ [(k, v)]) := by
  induction m with
  | nil => simp [valuesAdd, flatPairs]
  | cons e0 rest ih =>
    obtain ⟨k0, vs0⟩ := e0
    by_cases hke : k0 = k
    · rw [valuesAdd, if_pos hke]
      subst hke
      show (((vs0 ++ [v]).map fun v' => (k0, v')) ++ flatPairs rest).Perm
        (((vs0.map fun v' => (k0, v')) ++ flatPairs rest) ++ [(k0, v)])
      rw [List.map_append, List.append_assoc, List.append_assoc]
      exact List.Perm.append_left _ List.perm_append_comm
    · rw [valuesAdd, if_neg hke]
      show ((vs0.map fun v' => (k0, v')) ++ flatPairs (valuesAdd rest k v)).Perm
        (((vs0.map fun v' => (k0, v')) ++ flatPairs rest) ++ [(k, v)])
      rw [List.append_assoc]
      exact List.Perm.append_left _ ih

/-- Folding `Values.Add` over pairs appends them, up to permutation. -/
theorem flatPairs_foldl_group (ps : List (List Char × List Char)) :
    ∀ m, (flatPairs (ps.foldl (fun acc kv => valuesAdd acc kv.1 kv.2) m)).Perm
      (flatPairs m ++ ps) := by
  induction ps with
  | nil => intro m; simp
  | cons p rest ih =>
    intro m
    rw [List.foldl_cons]
    refine ((ih _).trans (((flatPairs_valuesAdd m p.1 p.2).append_right rest).trans ?_))
    rw [List.append_assoc]
    exact List.Perm.append_left _ (by simp)

/-- Grouping preserves the multiset of pairs. -/
theorem flatPairs_valuesGroup (ps : List (List Char × List Char)) :
    (flatPairs (valuesGroup ps)).Perm ps := by
  have h := flatPairs_foldl_group ps []
  simpa [valuesGroup, flatPairs] using h

/-- The extra-parameter fold appends the non-blank-key parameters, up to
permutation. -/
theorem flatPairs_foldl_params (P : List (String × String)) :
    ∀ m, (flatPairs (P.foldl
        (fun acc kv => if goTrim kv.1 = "" then acc else valuesAdd acc kv.1.data kv.2.data)
        m)).Perm
      (flatPairs m ++
        ((P.filter fun kv => ¬(goTrim kv.1 = "")).map fun kv => (kv.1.data, kv.2.data))) := by
  induction P with
  | nil => intro m; simp
  | cons p rest ih =>
    intro m
    rw [List.foldl_cons]
    by_cases hp : goTrim p.1 = ""
    · rw [if_pos hp]
      have hfilter : (p :: rest).filter (fun kv => ¬(goTrim kv.1 = "")) =
          rest.filter (fun kv => ¬(goTrim kv.1 = "")) := by
        simp [List.filter_cons, hp]
      rw [hfilter]
      exact ih m
    · rw [if_neg hp]
      have hfilter : (p :: rest).filter (fun kv => ¬(goTrim kv.1 = "")) =
          p :: rest.filter (fun kv => ¬(goTrim kv.1 = "")) := by
        simp [List.filter_cons, hp]
      rw [hfilter, List.map_cons]
      refine (ih _).trans ?_
      refine ((flatPairs_valuesAdd m p.1.data p.2.data).append_right _).trans ?_
      rw [List.append_assoc]
      exact List.Perm.append_left _ (by simp)

/-- Insertion keeps the list a permutation. -/
theorem insertValue_perm (x : List Char × List (List Char)) (m : Values) :
    (insertValue x m).Perm (x :: m) := by
  induction m with
  | nil => exact List.Perm.refl _
  | cons y rest ih =>
    rw [insertValue]
    by_cases hle : charListLe x.1 y.1 = true
    · rw [if_pos hle]
    · rw [if_neg hle]
      exact (ih.cons y).trans (List.Perm.swap x y rest)

/-- The key sort of `Values.Encode` permutes the map entries. -/
theorem sortValues_perm (m : Values) : (sortValues m).Perm m := by
  induction m with
  | nil => exact List.Perm.refl _
  | cons x rest ih =>
    rw [sortValues]
    exact (insertValue_perm x (sortValues rest)).trans (ih.cons x)

/-- The key sort preserves the multiset of flat pairs. -/
theorem flatPairs_sortValues (m : Values) :
    (flatPairs (sortValues m)).Perm (flatPairs m) := by
  unfold flatPairs
  exact (sortValues_perm m).flatMap_right _

/-- Encoded `k=v` segments of a separator-free map are non-empty and free
of `&` and `;`. -/
theorem encodeSegs_spec (m : Values) (hm : goodValues m) :
    ∀ seg ∈ encodeSegs m, seg ≠ [] ∧ '&' ∉ seg ∧ ';' ∉ seg := by
  intro seg hseg
  rcases List.mem_flatMap.mp hseg with ⟨e, hem, hseg'⟩
  rcases List.mem_map.mp hseg' with ⟨v, hvm, rfl⟩
  obtain ⟨⟨hk1, _, hk3⟩, hvs⟩ := hm e hem
  obtain ⟨hv1, hv2⟩ := hvs v hvm
  refine ⟨by simp, ?_, ?_⟩
  · intro hmem
    rcases List.mem_append.mp hmem with h1 | h2
    · exact hk1 h1
    · rcases List.mem_cons.mp h2 with hceq | hcm
      · cases hceq
      · exact hv1 hcm
  · intro hmem
    rcases List.mem_append.mp hmem with h1 | h2
    · exact hk3 h1
    · rcases List.mem_cons.mp h2 with hceq | hcm
      · cases hceq
      · exact hv2 hcm

/-- Decoding the encoded segments of a separator-free map recovers its
flat pairs. -/
theorem map_parsePair_encodeSegs (m : Values) (hm : goodValues m) :
    (encodeSegs m).map parsePair = flatPairs m := by
  induction m with
  | nil => rfl
  | cons e rest ih =>
    have hke : '=' ∉ e.1 := (hm e (List.mem_cons_self _ _)).1.2.1
    show ((e.2.map fun v => e.1 ++ '=' :: v) ++ encodeSegs rest).map parsePair =
      (e.2.map fun v => (e.1, v)) ++ flatPairs rest
    rw [List.map_append, List.map_map,
      ih fun e' he' => hm e' (List.mem_cons_of_mem _ he')]
    refine congrArg (· ++ flatPairs rest) ?_
    refine List.map_congr_left fun v _ => ?_
    simp only [Function.comp]
    exact parsePair_encode e.1 v hke

/-- Splitting the `&`-join of `&`-free segments recovers the segments. -/
theorem splitOnChar_intercalate (c : Char) (segs : List (List Char))
    (h : ∀ seg ∈ segs, c ∉ seg) (hne : segs ≠ []) :
    splitOnChar c (intercalateChar c segs) = segs := by
  induction segs with
  | nil => cases hne rfl
  | cons x rest ih =>
    cases rest with
    | nil => simp [intercalateChar, splitOnChar_not_mem c x (h x (List.mem_cons_self _ _))]
    | cons y rest' =>
      rw [intercalateChar, splitOnChar_append c x _ (h x (List.mem_cons_self _ _)),
        ih (fun seg hs => h seg (List.mem_cons_of_mem _ hs)) (by simp)]

/-- The `ParseQuery` guard passes on every non-empty `;`-free segment. -/
theorem filterMap_guard_eq_map (segs : List (List Char))
    (h : ∀ seg ∈ segs, ¬(seg = [] ∨ ';' ∈ seg)) :
    (segs.filterMap fun seg =>
      if seg = [] ∨ ';' ∈ seg then none else some (parsePair seg)) =
      segs.map parsePair := by
  induction segs with
  | nil => rfl
  | cons x rest ih =>
    rw [List.filterMap_cons, List.map_cons]
    rw [if_neg (h x (List.mem_cons_self _ _))]
    rw [ih fun seg hs => h seg (List.mem_cons_of_mem _ hs)]

/-- Re-parsing the encoding of a separator-free `Values` map yields its
flat pairs in key-sorted order. -/
theorem parseQueryPairs_valuesEncode (m : Values) (hm : goodValues m) :
    parseQueryPairs (valuesEncode m) = flatPairs (sortValues m) := by
  have hgood : goodValues (sortValues m) :=
    fun e he => hm e ((sortValues_perm m).mem_iff.mp he)
  have hspec := encodeSegs_spec (sortValues m) hgood
  rw [valuesEncode]
  cases hseg : encodeSegs (sortValues m) with
  | nil =>
    rw [← map_parsePair_encodeSegs (sortValues m) hgood, hseg]
    rfl
  | cons x rest =>
    rw [hseg] at hspec
    unfold parseQueryPairs
    rw [splitOnChar_intercalate '&' (x :: rest)
        (fun seg hs => (hspec seg hs).2.1) (by simp),
      filterMap_guard_eq_map (x :: rest)
        (fun seg hs => by
          obtain ⟨h1, -, h3⟩ := hspec seg hs
          push_neg
          exact ⟨h1, h3⟩),
      ← map_parsePair_encodeSegs (sortValues m) hgood, hseg]

/-- The pre-`?` part of a parsed URL never contains `?`. -/
theorem urlParse_pre_not_mem (s : String) : '?' ∉ (urlParse s).pre := by
  unfold urlParse
  rcases hcut : cutChar '?' s.data with ⟨pre, opt⟩
  cases opt with
  | some q =>
    exact (cutChar_eq_some '?' s.data pre q hcut).2
  | none =>
    obtain ⟨hpe, hnm⟩ := cutChar_eq_none '?' s.data pre hcut
    exact hpe ▸ hnm

/-- Serialising then re-parsing a URL whose opaque part is `?`-free is the
identity. -/
theorem urlParse_urlString (u : GoURL) (hpre : '?' ∉ u.pre) :
    urlParse (urlString u) = u := by
  obtain ⟨pre, rawQuery⟩ := u
  by_cases hq : rawQuery = []
  · subst hq
    have hdata : (urlString { pre := pre, rawQuery := [] }).data = pre := by
      simp [urlString]
    unfold urlParse
    rw [hdata, cutChar_not_mem '?' pre hpre]
  · have hdata : (urlString { pre := pre, rawQuery := rawQuery }).data =
        pre ++ '?' :: rawQuery := by
      simp [urlString, hq]
    unfold urlParse
    rw [hdata, cutChar_append '?' pre rawQuery hpre]

/-- **C5.** For every non-blank base URL and extra-parameter map whose keys
and values are free of the query separators (standing in for net/url's
percent-escaping, which is external), building the URL succeeds and
re-parsing it yields exactly the multiset union of the base URL's original
query pairs and the extra parameters, entries with blank keys silently
skipped. -/
theorem C5_buildURL_query_union (U : String) (P : List (String × String))
    (hU : goTrim U ≠ "")
    (hP : ∀ kv ∈ P, cleanKey kv.1 ∧ cleanVal kv.2) :
    ∃ out, buildURL U (some P) = .ok out ∧
      Multiset.ofList (urlQueryPairs (urlParse out)) =
        Multiset.ofList (urlQueryPairs (urlParse U)) +
        Multiset.ofList (P.filter fun kv => ¬(goTrim kv.1 = "")) := by
  by_cases hPnil : P = []
  · subst hPnil
    refine ⟨urlString (urlParse U), ?_, ?_⟩
    · simp [buildURL, hU]
    · rw [urlParse_urlString (urlParse U) (urlParse_pre_not_mem U)]
      simp
  · set u := urlParse U with hu
    set finalVals := P.foldl
      (fun acc kv => if goTrim kv.1 = "" then acc else valuesAdd acc kv.1.data kv.2.data)
      (goQuery u.rawQuery) with hfv
    have hgoodBase : goodValues (goQuery u.rawQuery) := by
      unfold goQuery valuesGroup
      exact foldl_valuesAdd_good _ [] (by intro e he; cases he) (parseQueryPairs_clean _)
    have hgood : goodValues finalVals := foldl_params_good P (goQuery u.rawQuery) hgoodBase hP
    refine ⟨urlString { u with rawQuery := valuesEncode finalVals }, ?_, ?_⟩
    · simp [buildURL, hU, hPnil]
    · have hpre : '?' ∉ ({ u with rawQuery := valuesEncode finalVals } : GoURL).pre :=
        urlParse_pre_not_mem U
      rw [urlParse_urlString _ hpre]
      have hperm : (parseQueryPairs (valuesEncode finalVals)).Perm
          (parseQueryPairs u.rawQuery ++
            ((P.filter fun kv => ¬(goTrim kv.1 = "")).map
              fun kv => (kv.1.data, kv.2.data))) := by
        rw [parseQueryPairs_valuesEncode finalVals hgood]
        refine (flatPairs_sortValues finalVals).trans ?_
        refine (flatPairs_foldl_params P (goQuery u.rawQuery)).trans ?_
        exact (flatPairs_valuesGroup _).append_right _
      have hpermS : (urlQueryPairs { u with rawQuery := valuesEncode finalVals }).Perm
          (urlQueryPairs u ++ (P.filter fun kv => ¬(goTrim kv.1 = ""))) := by
        unfold urlQueryPairs
        have hmap := hperm.map fun kv : List Char × List Char =>
          ((String.mk kv.1 : String), (String.mk kv.2 : String))
        rw [List.map_append, List.map_map] at hmap
        have hid : ((P.filter fun kv => ¬(goTrim kv.1 = "")).map
            ((fun kv : List Char × List Char =>
              ((String.mk kv.1 : String), (String.mk kv.2 : String))) ∘
              (fun kv : String × String => (kv.1.data, kv.2.data)))) =
            (P.filter fun kv => ¬(goTrim kv.1 = "")) := by
          refine (List.map_congr_left fun kv _ => rfl).trans (List.map_id _)
        rw [hid] at hmap
        exact hmap
      exact Multiset.coe_eq_coe.mpr hpermS

/-- Witness for C5: a base URL with a repeated key and an extra map with one
real and one blank key; the multisets agree with the duplicate preserved
and the blank entry skipped. -/
theorem C5_buildURL_query_union_witness :
    ∃ out, buildURL "http://h/p?a=1&a=2" (some [("b", "3"), (" ", "z")]) = .ok out ∧
      Multiset.ofList (urlQueryPairs (urlParse out)) =
        Multiset.ofList (urlQueryPairs (urlParse "http://h/p?a=1&a=2")) +
        Multiset.ofList ([("b", "3"), (" ", "z")].filter
          fun kv : String × String => ¬(goTrim kv.1 = "")) :=
  C5_buildURL_query_union "http://h/p?a=1&a=2" [("b", "3"), (" ", "z")]
    (by decide) (by decide)

end BFWrapper
